import Mathlib

/-!
# kk-go-db: schema synchroniser and reflective row mapper

A shallow embedding of `src/kk/db.go` and the properties of its migration
engine (`DBBuild`), its binders (`DBInsert`, `DBUpdate`) and its row scanner
(`DBScaner.Scan`).

Conventions of the embedding.

* A Go `map[string]V` is the list of its entries in the order a `range` loop
  visits them; `m[k]` is `List.lookup`.  No definition depends on the order
  of a map that is only looked up.
* Go `int` fields (`Length`, `Type`, `auto_increment`) are `Int`; `%d` is the
  decimal rendering `toString`.
* The database handle `*sql.DB` is a state `DB`: the rows of `__scheme`, the
  statements passed to `Exec` so far, and the server's answers.
* A record passed as `interface{}` is a non-nil pointer to a struct: the list
  of its fields as `reflect` shows them.  A panic of the Go runtime or of
  `reflect` is an `Except.error`.
* `strings.ToLower`, `json.Marshal` and `json.Unmarshal` are library
  functions and are taken as explicit arguments.
-/

namespace kk

/-! ## Values held by record fields and passed as statement arguments -/

/-- A Go value as seen through `interface{}` and `reflect`: a signed integer
of a given bit width, an unsigned integer, a string, a boolean, a value of
any other kind, or the nil interface. -/
inductive GoValue where
  | int (bits : Nat) (v : Int)
  | uint (bits : Nat) (v : Nat)
  | str (s : String)
  | bool (b : Bool)
  | other (repr : String)
  | nil
  deriving DecidableEq, Repr

/-! ## Column / index type model (db.go lines 13-86) -/

def DBFieldTypeString : Int := 1
def DBFieldTypeInt : Int := 2
def DBFieldTypeInt64 : Int := 3
def DBFieldTypeDouble : Int := 4
def DBFieldTypeBoolean : Int := 5
def DBFieldTypeText : Int := 6
def DBFieldTypeLongText : Int := 7

/-- The struct `DBField`; the Go field `Type` is spelled `Type_`. -/
structure DBField where
  Length : Int
  Type_ : Int
  deriving DecidableEq, Repr

/-- The verb `%d` of `fmt.Sprintf` on a Go `int`. -/
def fmtInt (n : Int) : String := toString n

/-- The method `(*DBField).DBType`. -/
def DBField.DBType (fd : DBField) : String :=
  if fd.Type_ = DBFieldTypeInt then
    if fd.Length = 0 then "INT" else "INT(" ++ fmtInt fd.Length ++ ")"
  else if fd.Type_ = DBFieldTypeInt64 then
    if fd.Length = 0 then "BIGINT" else "BIGINT(" ++ fmtInt fd.Length ++ ")"
  else if fd.Type_ = DBFieldTypeDouble then
    if fd.Length = 0 then "DOUBLE" else "DOUBLE(" ++ fmtInt fd.Length ++ ")"
  else if fd.Type_ = DBFieldTypeBoolean then
    "INT(1)"
  else if fd.Type_ = DBFieldTypeText then
    if fd.Length = 0 then "TEXT" else "TEXT(" ++ fmtInt fd.Length ++ ")"
  else if fd.Type_ = DBFieldTypeLongText then
    if fd.Length = 0 then "LONGTEXT" else "LONGTEXT(" ++ fmtInt fd.Length ++ ")"
  else if fd.Length = 0 then "VARCHAR(45)"
  else "VARCHAR(" ++ fmtInt fd.Length ++ ")"

def DBIndexTypeAsc : Int := 1
def DBIndexTypeDesc : Int := 2

/-- The struct `DBIndex`; the Go field `Type` is spelled `Type_`. -/
structure DBIndex where
  Field : String
  Type_ : Int
  Unique : Bool
  deriving DecidableEq, Repr

/-- The method `(*DBIndex).DBType`. -/
def DBIndex.DBType (idx : DBIndex) : String :=
  if idx.Type_ = DBIndexTypeAsc then "ASC"
  else if idx.Type_ = DBIndexTypeDesc then "DESC"
  else "ASC"

/-- The struct `DBTable`.  `Fields` and `Indexs` are Go maps. -/
structure DBTable where
  Name : String
  Key : String
  Fields : List (String × DBField)
  Indexs : List (String × DBIndex)
  deriving DecidableEq, Repr

/-- The two calls of `encoding/json` made by `DBBuild`: `json.Marshal(table)`
(its error is dropped, the bytes are turned into a string) and
`json.Unmarshal([]byte(scheme), &tb)` on a zero `DBTable` (its error is
dropped, so the result is whatever was decoded). -/
structure JSON where
  Marshal : DBTable → String
  Unmarshal : String → DBTable

/-! ## The database handle -/

/-- A statement handed to `db.Exec`: the SQL text and its arguments. -/
structure Stmt where
  sql : String
  args : List GoValue
  deriving DecidableEq, Repr

/-- A row of the metadata table `__scheme` created by `DBInit`. -/
structure SchemeRow where
  id : Int
  name : String
  scheme : String
  deriving DecidableEq, Repr

/-- The part of `sql.Result` that is read: `LastInsertId()`. -/
structure SqlResult where
  LastInsertId : Except String Int

/-- The state behind a `*sql.DB`: the rows of `__scheme` in storage order,
every statement passed to `Exec` so far (oldest first), the answer of the
server to each statement (an error or a result), and whether `Query` fails. -/
structure DB where
  scheme : List SchemeRow
  log : List Stmt
  answer : Stmt → Except String SqlResult
  queryErr : Option String

/-- The identifier `AUTO_INCREMENT` gives the next row of `__scheme`. -/
def nextId (rows : List SchemeRow) : Int :=
  rows.foldl (fun m r => max m r.id) 0 + 1

/-- What a successful statement does to `__scheme`: the `INSERT` of `DBBuild`
appends a row, its `UPDATE` rewrites the `scheme` of the rows with the given
id, and every other statement leaves the table as it is. -/
def registryEffect (rows : List SchemeRow) (st : Stmt) : List SchemeRow :=
  match st.args with
  | [GoValue.str name, GoValue.str scheme] =>
    if st.sql = "INSERT INTO __scheme(name,scheme) VALUES(?,?)" then
      rows ++ [{ id := nextId rows, name := name, scheme := scheme }]
    else rows
  | [GoValue.str scheme, GoValue.int _ id] =>
    if st.sql = "UPDATE __scheme SET scheme=? WHERE id=?" then
      rows.map (fun r => if r.id = id then { r with scheme := scheme } else r)
    else rows
  | _ => rows

/-- The call `db.Exec(sql, args...)`: the statement is recorded; the server
either refuses it or runs it. -/
def DB.Exec (db : DB) (sql : String) (args : List GoValue) :
    DB × Except String SqlResult :=
  let st : Stmt := { sql := sql, args := args }
  match db.answer st with
  | .error e => ({ db with log := db.log ++ [st] }, .error e)
  | .ok r =>
    ({ db with log := db.log ++ [st], scheme := registryEffect db.scheme st }, .ok r)

/-- The call `db.Query("SELECT * FROM __scheme WHERE name=?", tbname)`: the
rows of `__scheme` with that name, in storage order. -/
def DB.Query (db : DB) (sql : String) (args : List GoValue) :
    Except String (List SchemeRow) :=
  match db.queryErr with
  | some e => .error e
  | none =>
    match args with
    | [GoValue.str name] =>
      if sql = "SELECT * FROM __scheme WHERE name=?" then
        .ok (db.scheme.filter (fun r => r.name = name))
      else .ok []
    | _ => .ok []

/-! ## DBBuild (db.go lines 93-216) -/

/-- How a call of `DBBuild` ends: it returns `err` (`none` is Go's `nil`), or
`log.Fatal(err)` ends the process. -/
inductive Outcome where
  | returned (err : Option String)
  | fatal (err : String)
  deriving DecidableEq, Repr

/-- The loop `for name, field := range table.Fields` of the existing-row
path (lines 115-132); `tb` is the stored descriptor.  An error carries the
state at the moment of `log.Fatal`. -/
def buildFields (tbname : String) (tb : DBTable) :
    List (String × DBField) → DB → Bool → Except (DB × String) (DB × Bool)
  | [], db, hasUpdate => .ok (db, hasUpdate)
  | (name, field) :: rest, db, hasUpdate =>
    match tb.Fields.lookup name with
    | some fd =>
      if fd.Type_ ≠ field.Type_ ∨ fd.Length ≠ field.Length then
        match db.Exec ("ALTER TABLE " ++ tbname ++ " CHANGE " ++ name ++ " " ++ name
            ++ " " ++ field.DBType ++ ";") [] with
        | (db1, .error e) => .error (db1, e)
        | (db1, .ok _) => buildFields tbname tb rest db1 true
      else buildFields tbname tb rest db hasUpdate
    | none =>
      match db.Exec ("ALTER TABLE " ++ tbname ++ " ADD COLUMN " ++ name ++ " "
          ++ field.DBType ++ ";") [] with
      | (db1, .error e) => .error (db1, e)
      | (db1, .ok _) => buildFields tbname tb rest db1 true

/-- The loop `for name, index := range table.Indexs` of the existing-row
path (lines 134-151). -/
def buildIndexs (tbname : String) (tb : DBTable) :
    List (String × DBIndex) → DB → Bool → Except (DB × String) (DB × Bool)
  | [], db, hasUpdate => .ok (db, hasUpdate)
  | (name, index) :: rest, db, hasUpdate =>
    match tb.Indexs.lookup name with
    | some _ => buildIndexs tbname tb rest db hasUpdate
    | none =>
      if index.Unique then
        match db.Exec ("CREATE UNIQUE INDEX IF NOT EXISTS  " ++ name ++ " ON " ++ tbname
            ++ " (" ++ name ++ " " ++ index.DBType ++ ");") [] with
        | (db1, .error e) => .error (db1, e)
        | (db1, .ok _) => buildIndexs tbname tb rest db1 true
      else
        match db.Exec ("CREATE INDEX IF NOT EXISTS  " ++ name ++ " ON " ++ tbname
            ++ " (" ++ name ++ " " ++ index.DBType ++ ");") [] with
        | (db1, .error e) => .error (db1, e)
        | (db1, .ok _) => buildIndexs tbname tb rest db1 true

/-- The loop `for name, field := range table.Fields` of the new-table path
(lines 172-178): the buffer `s` and the counter `i`. -/
def createFields : List (String × DBField) → String → Nat → String × Nat
  | [], s, i => (s, i)
  | (name, field) :: rest, s, i =>
    let s1 := if i ≠ 0 then s ++ "," else s
    createFields rest (s1 ++ (name ++ " " ++ field.DBType)) (i + 1)

/-- The loop `for name, index := range table.Indexs` of the new-table path
(lines 184-192). -/
def createIndexs : List (String × DBIndex) → String → String
  | [], s => s
  | (name, index) :: rest, s =>
    if index.Unique then
      createIndexs rest (s ++ (",UNIQUE INDEX " ++ name ++ " (" ++ name ++ " "
        ++ index.DBType ++ ")"))
    else
      createIndexs rest (s ++ (",INDEX " ++ name ++ " (" ++ name ++ " "
        ++ index.DBType ++ ")"))

/-- The text of the `CREATE TABLE` statement built in lines 162-198. -/
def createTableSQL (table : DBTable) (tbname : String) (auto_increment : Int) : String :=
  let s0 := "CREATE TABLE IF NOT EXISTS " ++ tbname ++ " ("
  let (s1, i1) :=
    if table.Key ≠ "" then (s0 ++ (table.Key ++ " BIGINT NOT NULL AUTO_INCREMENT"), 1)
    else (s0, 0)
  let (s2, _) := createFields table.Fields s1 i1
  let s3 := if table.Key ≠ "" then s2 ++ (", PRIMARY KEY(" ++ table.Key ++ ") ") else s2
  let s4 := createIndexs table.Indexs s3
  if table.Key ≠ "" then s4 ++ (" ) AUTO_INCREMENT = " ++ fmtInt auto_increment ++ ";")
  else s4 ++ " ) ;"

/-- The existing-row path of `DBBuild` (lines 107-159) for the row with
identifier `id` and stored text `scheme`. -/
def buildExisting (J : JSON) (db : DB) (table : DBTable) (tbname : String)
    (id : Int) (scheme : String) : DB × Outcome :=
  let tb := J.Unmarshal scheme
  match buildFields tbname tb table.Fields db false with
  | .error (db1, e) => (db1, .fatal e)
  | .ok (db1, hasUpdate1) =>
    match buildIndexs tbname tb table.Indexs db1 hasUpdate1 with
    | .error (db2, e) => (db2, .fatal e)
    | .ok (db2, hasUpdate) =>
      if hasUpdate then
        match db2.Exec "UPDATE __scheme SET scheme=? WHERE id=?"
            [GoValue.str (J.Marshal table), GoValue.int 64 id] with
        | (db3, .error e) => (db3, .fatal e)
        | (db3, .ok _) => (db3, .returned none)
      else (db2, .returned none)

/-- The new-table path of `DBBuild` (lines 160-213). -/
def buildNew (J : JSON) (db : DB) (table : DBTable) (tbname : String)
    (auto_increment : Int) : DB × Outcome :=
  match db.Exec (createTableSQL table tbname auto_increment) [] with
  | (db1, .error e) => (db1, .fatal e)
  | (db1, .ok _) =>
    match db1.Exec "INSERT INTO __scheme(name,scheme) VALUES(?,?)"
        [GoValue.str tbname, GoValue.str (J.Marshal table)] with
    | (db2, .error e) => (db2, .fatal e)
    | (db2, .ok _) => (db2, .returned none)

/-- The function `DBBuild`.  `rs.Next()` is true when the query has a row;
`rs.Scan` then reads the first one. -/
def DBBuild (J : JSON) (db : DB) (table : DBTable) (pfx : String)
    (auto_increment : Int) : DB × Outcome :=
  let tbname := pfx ++ table.Name
  match db.Query "SELECT * FROM __scheme WHERE name=?" [GoValue.str tbname] with
  | .error e => (db, .returned (some e))
  | .ok [] => buildNew J db table tbname auto_increment
  | .ok (row :: _) => buildExisting J db table tbname row.id row.scheme

/-! ## Records seen through `reflect` -/

/-- A field of the struct behind `object`: its name (`reflect.StructField.Name`),
whether it is exported (`PkgPath == ""`), and its current value. -/
structure StructField where
  Name : String
  exported : Bool
  value : GoValue
  deriving DecidableEq, Repr

/-- The struct that `reflect.ValueOf(object).Elem()` yields: its fields in
declaration order.  It is addressable, since `object` is a pointer. -/
abbrev Record := List StructField

/-- The run-time panics the binders and the scanner can raise. -/
inductive Panic where
  | indexOutOfRange
  | unexportedField
  | setIntOnNonInt
  deriving DecidableEq, Repr

/-- The method `reflect.Value.Interface` on a field value: it panics on a
value obtained through an unexported field. -/
def StructField.Interface (f : StructField) : Except Panic GoValue :=
  if f.exported then .ok f.value else .error .unexportedField

/-- The method `reflect.Value.CanSet` on a field of an addressable struct. -/
def StructField.CanSet (f : StructField) : Bool := f.exported

/-- The conversion of an `int64` to a signed integer type of `bits` bits. -/
def wrapInt (bits : Nat) (x : Int) : Int :=
  (x + 2 ^ (bits - 1)) % 2 ^ bits - 2 ^ (bits - 1)

/-- The method `reflect.Value.SetInt` on a settable field: it stores the
converted value in a field of a signed integer kind and panics on any other
kind. -/
def StructField.SetInt (f : StructField) (x : Int) : Except Panic StructField :=
  match f.value with
  | .int bits _ => .ok { f with value := .int bits (wrapInt bits x) }
  | _ => .error .setIntOnNonInt

/-- The assignment `fs[n] = v` on a slice: a run-time bounds check. -/
def setIndex (fs : List GoValue) (n : Nat) (v : GoValue) : Except Panic (List GoValue) :=
  if n < fs.length then .ok (fs.set n v) else .error .indexOutOfRange

/-! ## DBUpdate (db.go lines 227-270) -/

/-- The local variables of `DBUpdate` that its loop changes. -/
structure UpdateState where
  s : String
  fs : List GoValue
  key : GoValue
  n : Nat
  deriving DecidableEq, Repr

/-- The loop `for i := 0; i < fc; i += 1` of `DBUpdate` (lines 242-259) over
the fields still to visit. -/
def updateLoop (ToLower : String → String) (table : DBTable) :
    List StructField → UpdateState → Except Panic UpdateState
  | [], st => .ok st
  | fd :: rest, st =>
    let name := ToLower fd.Name
    if name = table.Key then
      match fd.Interface with
      | .error p => .error p
      | .ok v => updateLoop ToLower table rest { st with key := v }
    else
      match table.Fields.lookup name with
      | some _ =>
        let s1 := if st.n ≠ 0 then st.s ++ "," else st.s
        let s2 := s1 ++ (" " ++ name ++ "=?")
        match fd.Interface with
        | .error p => .error p
        | .ok v =>
          match setIndex st.fs st.n v with
          | .error p => .error p
          | .ok fs1 => updateLoop ToLower table rest { st with s := s2, fs := fs1, n := st.n + 1 }
      | none => updateLoop ToLower table rest st

/-- The statement `DBUpdate` hands to `db.Exec`: the SQL text and `fs[:n]`. -/
def updateStmt (ToLower : String → String) (table : DBTable) (pfx : String)
    (object : Record) : Except Panic Stmt :=
  let tbname := pfx ++ table.Name
  let fsc := table.Fields.length
  let st0 : UpdateState :=
    { s := "UPDATE " ++ tbname ++ " SET ", fs := List.replicate (fsc + 1) GoValue.nil,
      key := GoValue.nil, n := 0 }
  match updateLoop ToLower table object st0 with
  | .error p => .error p
  | .ok st =>
    let s := st.s ++ (" WHERE " ++ table.Key ++ "=?")
    match setIndex st.fs st.n st.key with
    | .error p => .error p
    | .ok fs => .ok { sql := s, args := fs.take (st.n + 1) }

/-- The function `DBUpdate`: the database after the call, and either a
panic or the record after the call with the returned `(sql.Result, error)`. -/
def DBUpdate (ToLower : String → String) (db : DB) (table : DBTable) (pfx : String)
    (object : Record) : DB × Except Panic (Record × Except String SqlResult) :=
  match updateStmt ToLower table pfx object with
  | .error p => (db, .error p)
  | .ok st =>
    let (db1, res) := db.Exec st.sql st.args
    (db1, .ok (object, res))

/-! ## DBInsert (db.go lines 272-327) -/

/-- The local variables of `DBInsert` that its loop changes.  `key` is the
`reflect.Value` of a field, given by the field's position; `none` is the zero
`reflect.Value`. -/
structure InsertState where
  s : String
  w : String
  fs : List GoValue
  n : Nat
  key : Option Nat
  deriving DecidableEq, Repr

/-- The loop `for i := 0; i < fc; i += 1` of `DBInsert` (lines 288-307) from
field number `i` on. -/
def insertLoop (ToLower : String → String) (table : DBTable) :
    List StructField → Nat → InsertState → Except Panic InsertState
  | [], _, st => .ok st
  | fd :: rest, i, st =>
    let name := ToLower fd.Name
    if name = table.Key then
      insertLoop ToLower table rest (i + 1) { st with key := some i }
    else
      match table.Fields.lookup name with
      | some _ =>
        let s1 := if st.n ≠ 0 then st.s ++ "," else st.s
        let w1 := if st.n ≠ 0 then st.w ++ "," else st.w
        match fd.Interface with
        | .error p => .error p
        | .ok v =>
          match setIndex st.fs st.n v with
          | .error p => .error p
          | .ok fs1 =>
            insertLoop ToLower table rest (i + 1)
              { st with s := s1 ++ name, w := w1 ++ "?", fs := fs1, n := st.n + 1 }
      | none => insertLoop ToLower table rest (i + 1) st

/-- The statement `DBInsert` hands to `db.Exec` (the SQL text and `fs[:n]`)
and the key field it remembered. -/
def insertStmt (ToLower : String → String) (table : DBTable) (pfx : String)
    (object : Record) : Except Panic (Stmt × Option Nat) :=
  let tbname := pfx ++ table.Name
  let fsc := table.Fields.length
  let st0 : InsertState :=
    { s := "INSERT INTO " ++ tbname ++ "(", w := " VALUES (",
      fs := List.replicate fsc GoValue.nil, n := 0, key := none }
  match insertLoop ToLower table object 0 st0 with
  | .error p => .error p
  | .ok st => .ok ({ sql := (st.s ++ ")") ++ (st.w ++ ")"), args := st.fs.take st.n }, st.key)

/-- The write-back of lines 319-324: `key.CanSet()`, `rs.LastInsertId()`,
`key.SetInt(id)`. -/
def writeBack (object : Record) (key : Option Nat) (res : Except String SqlResult) :
    Except Panic Record :=
  match res with
  | .error _ => .ok object
  | .ok rs =>
    match key with
    | none => .ok object
    | some i =>
      match object.get? i with
      | none => .ok object
      | some f =>
        if f.CanSet then
          match rs.LastInsertId with
          | .error _ => .ok object
          | .ok id =>
            match f.SetInt id with
            | .error p => .error p
            | .ok f1 => .ok (object.set i f1)
        else .ok object

/-- The function `DBInsert`: the database after the call, and either a
panic or the record after the call with the returned `(sql.Result, error)`. -/
def DBInsert (ToLower : String → String) (db : DB) (table : DBTable) (pfx : String)
    (object : Record) : DB × Except Panic (Record × Except String SqlResult) :=
  match insertStmt ToLower table pfx object with
  | .error p => (db, .error p)
  | .ok (st, key) =>
    let (db1, res) := db.Exec st.sql st.args
    match writeBack object key res with
    | .error p => (db1, .error p)
    | .ok object1 => (db1, .ok (object1, res))

/-! ## DBScaner (db.go lines 336-381) -/

/-- The struct `DBScaner`.  `fields` is `none` for the nil slice; an element
is `none` for the nil interface and `some i` for the address of field `i` of
`object`. -/
structure DBScaner where
  object : Record
  fields : Option (List (Option Nat))
  deriving DecidableEq, Repr

/-- The function `NewDBScaner`. -/
def NewDBScaner (object : Record) : DBScaner := { object := object, fields := none }

/-- The part of `*sql.Rows` that `Scan` reads: the answer of `rows.Columns()`. -/
structure Rows where
  Columns : Except String (List String)

/-- The loop of lines 358-360 filling `mi`: after it, `mi[name]` is the last
position of `name` among the columns from position `i` on, or else what the
map held before. -/
def columnIndex : List String → Nat → (String → Option Nat) → (String → Option Nat)
  | [], _, mi => mi
  | c :: rest, i, mi => columnIndex rest (i + 1) (fun k => if k = c then some i else mi k)

/-- The loop of lines 368-376 from field number `i` on. -/
def bindLoop (ToLower : String → String) (mi : String → Option Nat) :
    List StructField → Nat → List (Option Nat) → Except Panic (List (Option Nat))
  | [], _, fields => .ok fields
  | fd :: rest, i, fields =>
    match mi (ToLower fd.Name) with
    | some idx =>
      if fd.exported then
        if idx < fields.length then
          bindLoop ToLower mi rest (i + 1) (fields.set idx (some i))
        else .error .indexOutOfRange
      else .error .unexportedField
    | none => bindLoop ToLower mi rest (i + 1) fields

/-- How a call of `Scan` ends: with the error of `rows.Columns()`, or by
calling `rows.Scan` with the given destinations. -/
inductive ScanCall where
  | columnsErr (err : String)
  | rowsScan (dest : List (Option Nat))
  deriving DecidableEq, Repr

/-- The method `(*DBScaner).Scan`: the scanner after the call and how the
call ended; or a panic. -/
def DBScaner.Scan (ToLower : String → String) (o : DBScaner) (rows : Rows) :
    Except Panic (DBScaner × ScanCall) :=
  match o.fields with
  | some fields => .ok (o, .rowsScan fields)
  | none =>
    match rows.Columns with
    | .error e => .ok (o, .columnsErr e)
    | .ok columns =>
      let fdc := columns.length
      let mi := columnIndex columns 0 (fun _ => none)
      match bindLoop ToLower mi o.object 0 (List.replicate fdc none) with
      | .error p => .error p
      | .ok fields => .ok ({ o with fields := some fields }, .rowsScan fields)

/-! ## Reference descriptions used in the statements -/

/-- A desired column is to be migrated against the stored descriptor `S`: it
is absent from `S`, or its `Type` or `Length` differs there. -/
def columnChanged (S : DBTable) (p : String × DBField) : Bool :=
  match S.Fields.lookup p.1 with
  | none => true
  | some fd => decide (fd.Type_ ≠ p.2.Type_ ∨ fd.Length ≠ p.2.Length)

/-- The statement for a desired column that is to be migrated: `ADD COLUMN`
when the column is absent from `S`, `CHANGE` when it is stored differently. -/
def columnStmt (tbname : String) (S : DBTable) (p : String × DBField) : Stmt :=
  match S.Fields.lookup p.1 with
  | none =>
    { sql := "ALTER TABLE " ++ tbname ++ " ADD COLUMN " ++ p.1 ++ " " ++ p.2.DBType ++ ";",
      args := [] }
  | some _ =>
    { sql := "ALTER TABLE " ++ tbname ++ " CHANGE " ++ p.1 ++ " " ++ p.1 ++ " "
        ++ p.2.DBType ++ ";",
      args := [] }

/-- A desired index whose name is absent from the stored descriptor `S`. -/
def indexAbsent (S : DBTable) (p : String × DBIndex) : Bool :=
  (S.Indexs.lookup p.1).isNone

/-- The `CREATE INDEX` statement with the given index name, indexed column,
direction and uniqueness. -/
def createIndexSQL (unique : Bool) (indexName tbname column direction : String) : String :=
  (if unique then "CREATE UNIQUE INDEX IF NOT EXISTS  " else "CREATE INDEX IF NOT EXISTS  ")
    ++ indexName ++ " ON " ++ tbname ++ " (" ++ column ++ " " ++ direction ++ ");"

/-- The statement for a desired index that is absent from the stored
descriptor: the indexed column is the index name. -/
def indexStmt (tbname : String) (p : String × DBIndex) : Stmt :=
  { sql := createIndexSQL p.2.Unique p.1 tbname p.1 p.2.DBType, args := [] }

/-- The DDL of the existing-row path for stored `S` and desired `D`: the
column statements in the order of `D.Fields`, then the index statements in
the order of `D.Indexs`. -/
def migrationDDL (tbname : String) (S D : DBTable) : List Stmt :=
  (D.Fields.filter (columnChanged S)).map (columnStmt tbname S)
    ++ (D.Indexs.filter (indexAbsent S)).map (indexStmt tbname)

/-- The registry write that ends a migration which changed something. -/
def registryUpdate (J : JSON) (D : DBTable) (id : Int) : Stmt :=
  { sql := "UPDATE __scheme SET scheme=? WHERE id=?",
    args := [GoValue.str (J.Marshal D), GoValue.int 64 id] }

/-- Everything the existing-row path hands to `db.Exec` when no statement
is refused: the DDL, followed by the registry write when there was any DDL. -/
def migrationStmts (J : JSON) (tbname : String) (S D : DBTable) (id : Int) : List Stmt :=
  migrationDDL tbname S D
    ++ (if (migrationDDL tbname S D).isEmpty then [] else [registryUpdate J D id])

/-- The stored form of a descriptor decodes to a descriptor with the same
columns (kind and length) and the same index names. -/
def roundTrips (J : JSON) (D : DBTable) : Prop :=
  (∀ p ∈ D.Fields, (J.Unmarshal (J.Marshal D)).Fields.lookup p.1 = some p.2)
    ∧ (∀ p ∈ D.Indexs, ((J.Unmarshal (J.Marshal D)).Indexs.lookup p.1).isSome = true)

/-- The text `s` begins with the text `p`. -/
def startsWith (s p : String) : Prop := p.data <+: s.data

/-- Running statements one after the other, stopping at the first one the
server refuses (the pattern `db.Exec` / `log.Fatal` of `DBBuild`). -/
def execAll : List Stmt → DB → Except (DB × String) DB
  | [], db => .ok db
  | st :: rest, db =>
    match db.Exec st.sql st.args with
    | (db1, .error e) => .error (db1, e)
    | (db1, .ok _) => execAll rest db1

/-- The statements of `execAll` carry no arguments in `DBBuild`'s loops. -/
def noArgs (l : List Stmt) : Prop := ∀ st ∈ l, st.args = []

/-! ## The text of `CREATE TABLE` -/

/-- The definition of the key column in `CREATE TABLE`, when there is one. -/
def keyColumnDefs (table : DBTable) : List String :=
  if table.Key ≠ "" then [table.Key ++ " BIGINT NOT NULL AUTO_INCREMENT"] else []

/-- The definition `<name> <DBType>` of a column in `CREATE TABLE`. -/
def columnDef (p : String × DBField) : String := p.1 ++ " " ++ p.2.DBType

/-- The clause of an index in `CREATE TABLE`. -/
def indexClause (p : String × DBIndex) : String :=
  (if p.2.Unique then ",UNIQUE INDEX " else ",INDEX ") ++ p.1 ++ " (" ++ p.1 ++ " "
    ++ p.2.DBType ++ ")"

/-! ## Reference descriptions for the binders and the scanner -/

/-- A record field is bound to a column: its lower-cased name is not the key
column and is a key of `table.Fields`. -/
def isBound (ToLower : String → String) (table : DBTable) (fd : StructField) : Bool :=
  decide (ToLower fd.Name ≠ table.Key) && (table.Fields.lookup (ToLower fd.Name)).isSome

/-- The bound fields of a record, in declaration order. -/
def boundFields (ToLower : String → String) (table : DBTable) (object : Record) :
    List StructField :=
  object.filter (isBound ToLower table)

/-- The columns of the bound fields: their lower-cased names. -/
def boundColumns (ToLower : String → String) (table : DBTable) (object : Record) :
    List String :=
  (boundFields ToLower table object).map (fun fd => ToLower fd.Name)

/-- The values of the bound fields. -/
def boundValues (ToLower : String → String) (table : DBTable) (object : Record) :
    List GoValue :=
  (boundFields ToLower table object).map (fun fd => fd.value)

/-- The position of the last field, among fields numbered from `i` on, whose
lower-cased name is the key column. -/
def keyFieldFrom (ToLower : String → String) (table : DBTable) :
    List StructField → Nat → Option Nat
  | [], _ => none
  | fd :: rest, i =>
    match keyFieldFrom ToLower table rest (i + 1) with
    | some j => some j
    | none => if ToLower fd.Name = table.Key then some i else none

/-- The key field of a record: the last field whose lower-cased name is the
key column. -/
def keyField (ToLower : String → String) (table : DBTable) (object : Record) : Option Nat :=
  keyFieldFrom ToLower table object 0

/-- The value `DBUpdate` binds to the `WHERE` clause: the value of the last
field whose lower-cased name is the key column, or nil when the record has no
such field. -/
def keyValue (ToLower : String → String) (table : DBTable) (object : Record) : GoValue :=
  match (object.filter (fun fd => decide (ToLower fd.Name = table.Key))).getLast? with
  | some fd => fd.value
  | none => GoValue.nil

/-- The text a binder loop appends for the items `l` when `n` items were
written before: the items separated by commas, with a leading comma when
`n` is not zero. -/
def commaList (n : Nat) (l : List String) : String :=
  if n = 0 then String.intercalate "," l else String.join (l.map (fun x => "," ++ x))

/-- The number of the last field satisfying `P`, among fields numbered from
`k` on. -/
def lastIndexFrom (P : StructField → Bool) : List StructField → Nat → Option Nat
  | [], _ => none
  | fd :: rest, k =>
    match lastIndexFrom P rest (k + 1) with
    | some j => some j
    | none => if P fd then some k else none

/-- The name `name` stands at position `i` of `cols` and at no later
position. -/
def lastAt (cols : List String) (i : Nat) (name : String) : Prop :=
  cols.get? i = some name ∧ ∀ m, i < m → cols.get? m ≠ some name

/-- Lower-casing of the letters `A` to `Z`; `strings.ToLower` agrees with it
on names made of ASCII characters. -/
def lowerASCII (s : String) : String := String.mk (s.data.map Char.toLower)

/-! ## Example data -/

/-- A JSON string whose content needs no escaping. -/
def jsonQuote (s : String) : String := "\x22" ++ s ++ "\x22"

/-- A JSON object with the given members, in the given order. -/
def jsonObject (members : List (String × String)) : String :=
  "\x7b" ++ String.intercalate "," (members.map (fun m => jsonQuote m.1 ++ ":" ++ m.2))
    ++ "\x7d"

/-- The JSON text of a `DBField`. -/
def jsonDBField (f : DBField) : String :=
  jsonObject [("Length", fmtInt f.Length), ("Type", fmtInt f.Type_)]

/-- The JSON text of a `DBIndex`. -/
def jsonDBIndex (x : DBIndex) : String :=
  jsonObject [("Field", jsonQuote x.Field), ("Type", fmtInt x.Type_),
    ("Unique", if x.Unique then "true" else "false")]

/-- The text `json.Marshal` gives for a descriptor whose names need no
escaping and whose maps are listed in key order. -/
def jsonDBTable (t : DBTable) : String :=
  jsonObject [("Name", jsonQuote t.Name), ("Key", jsonQuote t.Key),
    ("Fields", jsonObject (t.Fields.map (fun p => (p.1, jsonDBField p.2)))),
    ("Indexs", jsonObject (t.Indexs.map (fun p => (p.1, jsonDBIndex p.2))))]

/-- The descriptor of the scenario of the specification: table `user` with
key `id`, a column `name` of 45 characters and a non-unique index `name`. -/
def userTable : DBTable :=
  { Name := "user", Key := "id",
    Fields := [("name", { Length := 45, Type_ := DBFieldTypeString })],
    Indexs := [("name", { Field := "name", Type_ := 0, Unique := false })] }

/-- A later version of `userTable`: a new column `age`, the column `name`
widened to 64 characters, and a new unique descending index `age`. -/
def userTableV2 : DBTable :=
  { Name := "user", Key := "id",
    Fields := [("age", { Length := 0, Type_ := DBFieldTypeInt }),
               ("name", { Length := 64, Type_ := DBFieldTypeString })],
    Indexs := [("age", { Field := "age", Type_ := DBIndexTypeDesc, Unique := true }),
               ("name", { Field := "name", Type_ := 0, Unique := false })] }

/-- A version of `userTable` with one more index, called `byname`, whose
`Field` is the column `name`. -/
def userTableByName : DBTable :=
  { Name := "user", Key := "id",
    Fields := [("name", { Length := 45, Type_ := DBFieldTypeString })],
    Indexs := [("byname", { Field := "name", Type_ := DBIndexTypeAsc, Unique := false }),
               ("name", { Field := "name", Type_ := 0, Unique := false })] }

/-- The descriptors of the examples. -/
def exampleTables : List DBTable := [userTable, userTableV2, userTableByName]

/-- The codec of the examples: `Marshal` writes the JSON text, `Unmarshal`
reads back the text of an example descriptor and yields the zero `DBTable`
on any other input. -/
def exampleJSON : JSON :=
  { Marshal := jsonDBTable,
    Unmarshal := fun s =>
      match exampleTables.find? (fun t => decide (jsonDBTable t = s)) with
      | some t => t
      | none => { Name := "", Key := "", Fields := [], Indexs := [] } }

/-- A server that accepts every statement and reports `v` as the last
insert identifier. -/
def answerId (v : Int) : Stmt → Except String SqlResult :=
  fun _ => .ok { LastInsertId := .ok v }

/-- A server that accepts every statement and reports 1000 as the last
insert identifier. -/
def acceptAll : Stmt → Except String SqlResult := answerId 1000

/-- A server that refuses every statement. -/
def refuseAll : Stmt → Except String SqlResult := fun _ => .error "refused"

/-- A database whose `__scheme` table is empty. -/
def emptyDB : DB := { scheme := [], log := [], answer := acceptAll, queryErr := none }

/-- A database in which `userTable` has been registered as `app_user`. -/
def registeredDB : DB :=
  { scheme := [{ id := 1, name := "app_user", scheme := jsonDBTable userTable }],
    log := [], answer := acceptAll, queryErr := none }

/-- A record `struct { Id int64; Name string; Nick string }`. -/
def annRecord : Record :=
  [{ Name := "Id", exported := true, value := .int 64 0 },
   { Name := "Name", exported := true, value := .str "ann" },
   { Name := "Nick", exported := true, value := .str "a" }]

/-- A record `struct { Id int64; name string }`: the field `name` is not
exported. -/
def hiddenNameRecord : Record :=
  [{ Name := "Id", exported := true, value := .int 64 7 },
   { Name := "name", exported := false, value := .str "ann" }]

/-- A record `struct { Id int64; Name string; NAME string }`: two fields
whose names differ only in letter case. -/
def twoNamesRecord : Record :=
  [{ Name := "Id", exported := true, value := .int 64 7 },
   { Name := "Name", exported := true, value := .str "ann" },
   { Name := "NAME", exported := true, value := .str "ANN" }]

/-- A record `struct { Id int32; Name string }`. -/
def narrowKeyRecord : Record :=
  [{ Name := "Id", exported := true, value := .int 32 0 },
   { Name := "Name", exported := true, value := .str "ann" }]

/-- A record `struct { ID int64; Id string }`: two fields whose lower-cased
name is `id`, the last one a string. -/
def twoKeysRecord : Record :=
  [{ Name := "ID", exported := true, value := .int 64 0 },
   { Name := "Id", exported := true, value := .str "" }]

/-- A record `struct { id int64; Name string }`: the field `id` is not
exported. -/
def hiddenKeyRecord : Record :=
  [{ Name := "id", exported := false, value := .int 64 7 },
   { Name := "Name", exported := true, value := .str "ann" }]

/-- A record `struct { Id int64; Name string }`. -/
def idNameRecord : Record :=
  [{ Name := "Id", exported := true, value := .int 64 0 },
   { Name := "Name", exported := true, value := .str "" }]

/-! ## Lemmas on the database handle -/

theorem Exec_fst_log (db : DB) (sql : String) (args : List GoValue) :
    (db.Exec sql args).1.log = db.log ++ [{ sql := sql, args := args }] := by
  cases h : db.answer { sql := sql, args := args } <;> simp [DB.Exec, h]

theorem Exec_fst_answer (db : DB) (sql : String) (args : List GoValue) :
    (db.Exec sql args).1.answer = db.answer := by
  cases h : db.answer { sql := sql, args := args } <;> simp [DB.Exec, h]

theorem Exec_fst_queryErr (db : DB) (sql : String) (args : List GoValue) :
    (db.Exec sql args).1.queryErr = db.queryErr := by
  cases h : db.answer { sql := sql, args := args } <;> simp [DB.Exec, h]

theorem Exec_fst_scheme_nil (db : DB) (sql : String) :
    (db.Exec sql []).1.scheme = db.scheme := by
  cases h : db.answer { sql := sql, args := [] } <;> simp [DB.Exec, h, registryEffect]

theorem Exec_snd (db : DB) (sql : String) (args : List GoValue) :
    (db.Exec sql args).2 = db.answer { sql := sql, args := args } := by
  cases h : db.answer { sql := sql, args := args } <;> simp [DB.Exec, h]

theorem Exec_fst_scheme_ok (db : DB) (sql : String) (args : List GoValue) (r : SqlResult)
    (h : (db.Exec sql args).2 = .ok r) :
    (db.Exec sql args).1.scheme = registryEffect db.scheme { sql := sql, args := args } := by
  rw [Exec_snd] at h
  simp [DB.Exec, h]

theorem execAll_ok (l : List Stmt) : ∀ (db db1 : DB), execAll l db = .ok db1 →
    db1.log = db.log ++ l ∧ db1.answer = db.answer ∧ db1.queryErr = db.queryErr
      ∧ (∀ st ∈ l, ∃ r, db.answer st = .ok r) := by
  induction l with
  | nil =>
    intro db db1 h
    simp only [execAll, Except.ok.injEq] at h
    subst h
    simp
  | cons st rest ih =>
    intro db db1 h
    simp only [execAll] at h
    have hlog := Exec_fst_log db st.sql st.args
    have hans := Exec_fst_answer db st.sql st.args
    have hq := Exec_fst_queryErr db st.sql st.args
    have hsnd := Exec_snd db st.sql st.args
    rcases hx : db.Exec st.sql st.args with ⟨d, e | r⟩
    · rw [hx] at h; cases h
    · rw [hx] at h hlog hans hq hsnd
      obtain ⟨h1, h2, h3, h4⟩ := ih d db1 h
      simp only at hlog hans hq hsnd
      refine ⟨?_, ?_, ?_, ?_⟩
      · rw [h1, hlog]; simp
      · rw [h2, hans]
      · rw [h3, hq]
      · intro st1 hst1
        rcases List.mem_cons.mp hst1 with rfl | hmem
        · exact ⟨r, hsnd.symm⟩
        · obtain ⟨r1, hr1⟩ := h4 st1 hmem
          exact ⟨r1, by rw [← hans]; exact hr1⟩

theorem execAll_ok_scheme (l : List Stmt) (hl : noArgs l) : ∀ (db db1 : DB),
    execAll l db = .ok db1 → db1.scheme = db.scheme := by
  induction l with
  | nil =>
    intro db db1 h
    simp only [execAll, Except.ok.injEq] at h
    subst h
    rfl
  | cons st rest ih =>
    intro db db1 h
    simp only [execAll] at h
    have hst : st.args = [] := hl st (List.mem_cons_self _ _)
    have hsch := Exec_fst_scheme_nil db st.sql
    rw [← hst] at hsch
    rcases hx : db.Exec st.sql st.args with ⟨d, e | r⟩
    · rw [hx] at h; cases h
    · rw [hx] at h hsch
      have := ih (fun s hs => hl s (List.mem_cons_of_mem _ hs)) d db1 h
      rw [this]; exact hsch

theorem execAll_error (l : List Stmt) : ∀ (db db1 : DB) (e : String),
    execAll l db = .error (db1, e) →
    ∃ k, k < l.length ∧ db1.log = db.log ++ l.take (k + 1) := by
  induction l with
  | nil =>
    intro db db1 e h
    simp [execAll] at h
  | cons st rest ih =>
    intro db db1 e h
    simp only [execAll] at h
    have hlog := Exec_fst_log db st.sql st.args
    rcases hx : db.Exec st.sql st.args with ⟨d, e1 | r⟩
    · rw [hx] at h hlog
      simp only [Except.error.injEq, Prod.mk.injEq] at h
      obtain ⟨rfl, _⟩ := h
      exact ⟨0, by simp, by simpa using hlog⟩
    · rw [hx] at h hlog
      obtain ⟨k, hk, hk2⟩ := ih d db1 e h
      refine ⟨k + 1, by simp [hk], ?_⟩
      rw [hk2]
      simp only at hlog
      rw [hlog]
      simp

theorem execAll_ok_of_accepted (l : List Stmt) (db : DB)
    (h : ∀ st ∈ l, ∃ r, db.answer st = .ok r) : ∃ db1, execAll l db = .ok db1 := by
  induction l generalizing db with
  | nil => exact ⟨db, rfl⟩
  | cons st rest ih =>
    obtain ⟨r, hr⟩ := h st (List.mem_cons_self _ _)
    have hsnd := Exec_snd db st.sql st.args
    have hans := Exec_fst_answer db st.sql st.args
    simp only [execAll]
    rcases hx : db.Exec st.sql st.args with ⟨d, e | r1⟩
    · rw [hx] at hsnd; simp only at hsnd; rw [hr] at hsnd; cases hsnd
    · rw [hx] at hans
      simp only at hans
      exact ih d (fun s hs => by rw [hans]; exact h s (List.mem_cons_of_mem _ hs))

/-! ## The loops of the existing-row path run `migrationDDL` -/

theorem buildFields_eq (tbname : String) (tb : DBTable) :
    ∀ (l : List (String × DBField)) (db : DB) (h : Bool),
    buildFields tbname tb l db h =
      match execAll ((l.filter (columnChanged tb)).map (columnStmt tbname tb)) db with
      | .error x => .error x
      | .ok d => .ok (d, h || !(l.filter (columnChanged tb)).isEmpty) := by
  intro l
  induction l with
  | nil => intro db h; simp [buildFields, execAll]
  | cons p rest ih =>
    intro db h
    obtain ⟨name, field⟩ := p
    cases hlk : tb.Fields.lookup name with
    | none =>
      have hc : columnChanged tb (name, field) = true := by simp [columnChanged, hlk]
      simp only [buildFields, hlk, List.filter_cons, hc, if_true, List.map_cons, execAll,
        columnStmt]
      rcases hx : db.Exec ("ALTER TABLE " ++ tbname ++ " ADD COLUMN " ++ name ++ " "
          ++ field.DBType ++ ";") [] with ⟨d, e | r⟩
      · simp
      · simp only [ih d true]
        cases execAll (List.map (columnStmt tbname tb)
          (List.filter (columnChanged tb) rest)) d <;> simp
    | some fd =>
      by_cases hd : fd.Type_ ≠ field.Type_ ∨ fd.Length ≠ field.Length
      · have hc : columnChanged tb (name, field) = true := by
          simp only [columnChanged, hlk]; exact decide_eq_true hd
        simp only [buildFields, hlk, List.filter_cons, hc, if_true, List.map_cons, execAll,
          columnStmt, if_pos hd]
        rcases hx : db.Exec ("ALTER TABLE " ++ tbname ++ " CHANGE " ++ name ++ " " ++ name
            ++ " " ++ field.DBType ++ ";") [] with ⟨d, e | r⟩
        · simp
        · simp only [ih d true]
          cases execAll (List.map (columnStmt tbname tb)
            (List.filter (columnChanged tb) rest)) d <;> simp
      · have hc : columnChanged tb (name, field) = false := by
          simp only [columnChanged, hlk]; exact decide_eq_false hd
        simp only [buildFields, hlk, List.filter_cons, hc, if_neg hd]
        simp [ih db h]

theorem buildIndexs_eq (tbname : String) (tb : DBTable) :
    ∀ (l : List (String × DBIndex)) (db : DB) (h : Bool),
    buildIndexs tbname tb l db h =
      match execAll ((l.filter (indexAbsent tb)).map (indexStmt tbname)) db with
      | .error x => .error x
      | .ok d => .ok (d, h || !(l.filter (indexAbsent tb)).isEmpty) := by
  intro l
  induction l with
  | nil => intro db h; simp [buildIndexs, execAll]
  | cons p rest ih =>
    intro db h
    obtain ⟨name, index⟩ := p
    cases hlk : tb.Indexs.lookup name with
    | some x =>
      have hc : indexAbsent tb (name, index) = false := by simp [indexAbsent, hlk]
      simp only [buildIndexs, hlk, List.filter_cons, hc]
      simp [ih db h]
    | none =>
      have hc : indexAbsent tb (name, index) = true := by simp [indexAbsent, hlk]
      cases hu : index.Unique with
      | true =>
        simp only [buildIndexs, hlk, List.filter_cons, hc, if_true, List.map_cons, execAll,
          indexStmt, createIndexSQL, hu]
        rcases hx : db.Exec ("CREATE UNIQUE INDEX IF NOT EXISTS  " ++ name ++ " ON " ++ tbname
            ++ " (" ++ name ++ " " ++ index.DBType ++ ");") [] with ⟨d, e | r⟩
        · simp
        · simp only [ih d true]
          cases execAll (List.map (indexStmt tbname)
            (List.filter (indexAbsent tb) rest)) d <;> simp
      | false =>
        simp only [buildIndexs, hlk, List.filter_cons, hc, if_true, List.map_cons, execAll,
          indexStmt, createIndexSQL, hu]
        rcases hx : db.Exec ("CREATE INDEX IF NOT EXISTS  " ++ name ++ " ON " ++ tbname
            ++ " (" ++ name ++ " " ++ index.DBType ++ ");") [] with ⟨d, e | r⟩
        · simp [hx]
        · simp only [ih d true]
          cases hy : execAll (List.map (indexStmt tbname)
            (List.filter (indexAbsent tb) rest)) d <;> simp [hx, hy]

theorem join_cons (a : String) (l : List String) :
    String.join (a :: l) = a ++ String.join l := by
  apply String.ext
  simp [String.data_join]

theorem join_nil : String.join [] = "" := rfl

theorem intercalate_go_eq (sep : String) : ∀ (l : List String) (acc : String),
    String.intercalate.go acc sep l = acc ++ String.join (l.map (fun x => sep ++ x)) := by
  intro l
  induction l with
  | nil => intro acc; simp [String.intercalate.go, join_nil]
  | cons a rest ih =>
    intro acc
    simp only [String.intercalate.go, ih, List.map_cons, join_cons]
    simp [String.append_assoc]

theorem intercalate_cons (sep a : String) (l : List String) :
    String.intercalate sep (a :: l) = a ++ String.join (l.map (fun x => sep ++ x)) := by
  simp [String.intercalate, intercalate_go_eq]

theorem createFields_eq : ∀ (l : List (String × DBField)) (s : String) (i : Nat),
    createFields l s i =
      (s ++ (if i = 0 then String.intercalate "," (l.map columnDef)
             else String.join ((l.map columnDef).map (fun x => "," ++ x))),
       i + l.length) := by
  intro l
  induction l with
  | nil =>
    intro s i
    by_cases hi : i = 0 <;> simp [createFields, hi, String.intercalate, join_nil]
  | cons p rest ih =>
    intro s i
    obtain ⟨name, field⟩ := p
    simp only [createFields, ih, List.map_cons, List.length_cons, intercalate_cons, join_cons]
    by_cases hi : i = 0
    · simp [hi, columnDef, String.append_assoc, Nat.add_comm]
    · simp [hi, columnDef, String.append_assoc]
      omega

theorem createIndexs_eq : ∀ (l : List (String × DBIndex)) (s : String),
    createIndexs l s = s ++ String.join (l.map indexClause) := by
  intro l
  induction l with
  | nil => intro s; simp [createIndexs, join_nil]
  | cons p rest ih =>
    intro s
    obtain ⟨name, index⟩ := p
    cases hu : index.Unique <;>
      simp [createIndexs, ih, hu, indexClause, join_cons, String.append_assoc]

/-- The text of `CREATE TABLE` in closed form: the key column (when `Key` is
not empty) and the columns of `Fields`, separated by commas; the primary-key
clause (when `Key` is not empty); one clause per index; the closing part. -/
theorem createTableSQL_eq (table : DBTable) (tbname : String) (n : Int) :
    createTableSQL table tbname n =
      "CREATE TABLE IF NOT EXISTS " ++ tbname ++ " ("
        ++ String.intercalate "," (keyColumnDefs table ++ table.Fields.map columnDef)
        ++ (if table.Key ≠ "" then ", PRIMARY KEY(" ++ table.Key ++ ") " else "")
        ++ String.join (table.Indexs.map indexClause)
        ++ (if table.Key ≠ "" then " ) AUTO_INCREMENT = " ++ fmtInt n ++ ";" else " ) ;") := by
  by_cases hk : table.Key = ""
  · simp [createTableSQL, hk, keyColumnDefs, createFields_eq, createIndexs_eq,
      String.append_assoc]
  · simp [createTableSQL, hk, keyColumnDefs, createFields_eq, createIndexs_eq,
      intercalate_cons, String.append_assoc]

/-! ## The two paths of `DBBuild` -/

theorem execAll_append (l1 l2 : List Stmt) : ∀ (db : DB),
    execAll (l1 ++ l2) db =
      match execAll l1 db with
      | .error x => .error x
      | .ok d => execAll l2 d := by
  induction l1 with
  | nil => intro db; simp [execAll]
  | cons st rest ih =>
    intro db
    simp only [List.cons_append, execAll]
    rcases hx : db.Exec st.sql st.args with ⟨d, e | r⟩
    · simp
    · simp [ih d]

theorem isEmpty_map_append {α β γ : Type} (f : α → γ) (g : β → γ) (l1 : List α)
    (l2 : List β) : (l1.map f ++ l2.map g).isEmpty = (l1.isEmpty && l2.isEmpty) := by
  cases l1 <;> cases l2 <;> rfl

theorem migrationDDL_noArgs (tbname : String) (S D : DBTable) :
    noArgs (migrationDDL tbname S D) := by
  intro st hst
  simp only [migrationDDL, List.mem_append, List.mem_map, List.mem_filter] at hst
  rcases hst with ⟨p, _, rfl⟩ | ⟨p, _, rfl⟩
  · simp only [columnStmt]; split <;> rfl
  · rfl

theorem buildExisting_eq (J : JSON) (db : DB) (table : DBTable) (tbname : String)
    (id : Int) (scheme : String) :
    buildExisting J db table tbname id scheme =
      match execAll (migrationDDL tbname (J.Unmarshal scheme) table) db with
      | .error (d, e) => (d, .fatal e)
      | .ok d =>
        if (migrationDDL tbname (J.Unmarshal scheme) table).isEmpty then (d, .returned none)
        else
          match d.Exec "UPDATE __scheme SET scheme=? WHERE id=?"
              [GoValue.str (J.Marshal table), GoValue.int 64 id] with
          | (d3, .error e) => (d3, .fatal e)
          | (d3, .ok _) => (d3, .returned none) := by
  simp only [buildExisting, buildFields_eq, buildIndexs_eq, migrationDDL, execAll_append]
  rcases h1 : execAll (List.map (columnStmt tbname (J.Unmarshal scheme))
      (List.filter (columnChanged (J.Unmarshal scheme)) table.Fields)) db with ⟨d, e⟩ | d
  · simp
  · simp only
    rcases h2 : execAll (List.map (indexStmt tbname)
        (List.filter (indexAbsent (J.Unmarshal scheme)) table.Indexs)) d with ⟨d2, e⟩ | d2
    · simp
    · simp only [Bool.false_or, isEmpty_map_append]
      cases ha : (List.filter (columnChanged (J.Unmarshal scheme)) table.Fields).isEmpty <;>
        cases hb : (List.filter (indexAbsent (J.Unmarshal scheme)) table.Indexs).isEmpty <;>
        simp

theorem buildExisting_noop (J : JSON) (db : DB) (table : DBTable) (tbname : String)
    (id : Int) (scheme : String)
    (h : migrationDDL tbname (J.Unmarshal scheme) table = []) :
    buildExisting J db table tbname id scheme = (db, .returned none) := by
  rw [buildExisting_eq, h]
  simp [execAll]

theorem buildExisting_returned (J : JSON) (db : DB) (table : DBTable) (tbname : String)
    (id : Int) (scheme : String)
    (h : (buildExisting J db table tbname id scheme).2 = .returned none) :
    (buildExisting J db table tbname id scheme).1.log
        = db.log ++ migrationStmts J tbname (J.Unmarshal scheme) table id
      ∧ (buildExisting J db table tbname id scheme).1.scheme
        = (if (migrationDDL tbname (J.Unmarshal scheme) table).isEmpty then db.scheme
           else db.scheme.map
             (fun r => if r.id = id then { r with scheme := J.Marshal table } else r))
      ∧ (buildExisting J db table tbname id scheme).1.queryErr = db.queryErr
      ∧ (buildExisting J db table tbname id scheme).1.answer = db.answer := by
  rw [buildExisting_eq] at h ⊢
  rcases h1 : execAll (migrationDDL tbname (J.Unmarshal scheme) table) db with ⟨d, e⟩ | d
  · rw [h1] at h; simp at h
  · obtain ⟨hlog, hans, hq, _⟩ := execAll_ok _ _ _ h1
    have hsch := execAll_ok_scheme _ (migrationDDL_noArgs _ _ _) _ _ h1
    rw [h1] at h
    simp only at h ⊢
    cases he : (migrationDDL tbname (J.Unmarshal scheme) table).isEmpty with
    | true =>
      simp only [migrationStmts, he, if_true, List.append_nil]
      exact ⟨hlog, hsch, hq, hans⟩
    | false =>
      rw [he] at h
      simp only [Bool.false_eq_true, if_false] at h ⊢
      have e1 := Exec_fst_log d "UPDATE __scheme SET scheme=? WHERE id=?"
        [GoValue.str (J.Marshal table), GoValue.int 64 id]
      have e2 := Exec_fst_answer d "UPDATE __scheme SET scheme=? WHERE id=?"
        [GoValue.str (J.Marshal table), GoValue.int 64 id]
      have e3 := Exec_fst_queryErr d "UPDATE __scheme SET scheme=? WHERE id=?"
        [GoValue.str (J.Marshal table), GoValue.int 64 id]
      have e4 := Exec_fst_scheme_ok d "UPDATE __scheme SET scheme=? WHERE id=?"
        [GoValue.str (J.Marshal table), GoValue.int 64 id]
      rcases hx : d.Exec "UPDATE __scheme SET scheme=? WHERE id=?"
          [GoValue.str (J.Marshal table), GoValue.int 64 id] with ⟨d3, e | r⟩
      · rw [hx] at h; simp at h
      · rw [hx] at e1 e2 e3 e4
        simp only at e1 e2 e3
        have e5 := e4 r rfl
        simp only [registryEffect, if_true] at e5
        refine ⟨?_, ?_, ?_, ?_⟩
        · rw [e1, hlog]
          simp [migrationStmts, he, registryUpdate]
        · rw [e5, hsch]
        · rw [e3, hq]
        · rw [e2, hans]

theorem buildExisting_log (J : JSON) (db : DB) (table : DBTable) (tbname : String)
    (id : Int) (scheme : String) :
    ∃ k, (buildExisting J db table tbname id scheme).1.log
      = db.log ++ (migrationStmts J tbname (J.Unmarshal scheme) table id).take k := by
  rw [buildExisting_eq]
  rcases h1 : execAll (migrationDDL tbname (J.Unmarshal scheme) table) db with ⟨d, e⟩ | d
  · obtain ⟨k, hk, hk2⟩ := execAll_error _ _ _ _ h1
    refine ⟨k + 1, ?_⟩
    simp only [hk2, migrationStmts]
    rw [List.take_append_of_le_length (by omega)]
  · obtain ⟨hlog, _, _, _⟩ := execAll_ok _ _ _ h1
    simp only
    cases he : (migrationDDL tbname (J.Unmarshal scheme) table).isEmpty with
    | true =>
      refine ⟨(migrationDDL tbname (J.Unmarshal scheme) table).length, ?_⟩
      simp [migrationStmts, he, hlog]
    | false =>
      simp only [Bool.false_eq_true, if_false]
      have e1 := Exec_fst_log d "UPDATE __scheme SET scheme=? WHERE id=?"
        [GoValue.str (J.Marshal table), GoValue.int 64 id]
      refine ⟨(migrationDDL tbname (J.Unmarshal scheme) table).length + 1, ?_⟩
      rcases hx : d.Exec "UPDATE __scheme SET scheme=? WHERE id=?"
          [GoValue.str (J.Marshal table), GoValue.int 64 id] with ⟨d3, e | r⟩ <;>
      · rw [hx] at e1
        simp only at e1
        simp only [e1, hlog, migrationStmts, he, Bool.false_eq_true, if_false, registryUpdate]
        rw [List.take_of_length_le (by simp)]
        simp

theorem buildNew_returned (J : JSON) (db : DB) (table : DBTable) (tbname : String)
    (n : Int) (h : (buildNew J db table tbname n).2 = .returned none) :
    (buildNew J db table tbname n).1.log
        = db.log ++ [{ sql := createTableSQL table tbname n, args := [] },
            { sql := "INSERT INTO __scheme(name,scheme) VALUES(?,?)",
              args := [GoValue.str tbname, GoValue.str (J.Marshal table)] }]
      ∧ (buildNew J db table tbname n).1.scheme
        = db.scheme ++ [{ id := nextId db.scheme, name := tbname, scheme := J.Marshal table }]
      ∧ (buildNew J db table tbname n).1.queryErr = db.queryErr
      ∧ (buildNew J db table tbname n).1.answer = db.answer := by
  have a1 := Exec_fst_log db (createTableSQL table tbname n) []
  have a2 := Exec_fst_answer db (createTableSQL table tbname n) []
  have a3 := Exec_fst_queryErr db (createTableSQL table tbname n) []
  have a4 := Exec_fst_scheme_nil db (createTableSQL table tbname n)
  unfold buildNew at h ⊢
  rcases hx : db.Exec (createTableSQL table tbname n) [] with ⟨d1, e | r⟩
  · rw [hx] at h; simp at h
  · rw [hx] at h a1 a2 a3 a4
    simp only at h a1 a2 a3 a4 ⊢
    have b1 := Exec_fst_log d1 "INSERT INTO __scheme(name,scheme) VALUES(?,?)"
      [GoValue.str tbname, GoValue.str (J.Marshal table)]
    have b2 := Exec_fst_answer d1 "INSERT INTO __scheme(name,scheme) VALUES(?,?)"
      [GoValue.str tbname, GoValue.str (J.Marshal table)]
    have b3 := Exec_fst_queryErr d1 "INSERT INTO __scheme(name,scheme) VALUES(?,?)"
      [GoValue.str tbname, GoValue.str (J.Marshal table)]
    have b4 := Exec_fst_scheme_ok d1 "INSERT INTO __scheme(name,scheme) VALUES(?,?)"
      [GoValue.str tbname, GoValue.str (J.Marshal table)]
    rcases hy : d1.Exec "INSERT INTO __scheme(name,scheme) VALUES(?,?)"
        [GoValue.str tbname, GoValue.str (J.Marshal table)] with ⟨d2, e | r2⟩
    · rw [hy] at h; simp at h
    · rw [hy] at b1 b2 b3 b4
      simp only at b1 b2 b3
      have b5 := b4 r2 rfl
      simp only [registryEffect, if_true] at b5
      refine ⟨?_, ?_, ?_, ?_⟩
      · rw [b1, a1]; simp
      · rw [b5, a4]
      · rw [b3, a3]
      · rw [b2, a2]

/-! ## `DBBuild` as a whole -/

theorem DBBuild_eq (J : JSON) (db : DB) (table : DBTable) (pfx : String) (n : Int) :
    DBBuild J db table pfx n =
      match db.queryErr with
      | some e => (db, .returned (some e))
      | none =>
        match db.scheme.filter (fun r => decide (r.name = pfx ++ table.Name)) with
        | [] => buildNew J db table (pfx ++ table.Name) n
        | row :: _ => buildExisting J db table (pfx ++ table.Name) row.id row.scheme := by
  unfold DBBuild DB.Query
  cases db.queryErr with
  | some e => rfl
  | none =>
    simp only [if_true]
    cases db.scheme.filter (fun r => decide (r.name = pfx ++ table.Name)) <;> rfl

theorem Query_ok_iff (db : DB) (tbname : String) (rows : List SchemeRow) :
    db.Query "SELECT * FROM __scheme WHERE name=?" [GoValue.str tbname] = .ok rows
      ↔ db.queryErr = none ∧ db.scheme.filter (fun r => decide (r.name = tbname)) = rows := by
  unfold DB.Query
  cases db.queryErr with
  | some e => simp
  | none => simp

theorem migrationDDL_roundTrips (J : JSON) (table : DBTable) (tbname : String)
    (h : roundTrips J table) :
    migrationDDL tbname (J.Unmarshal (J.Marshal table)) table = [] := by
  obtain ⟨hf, hi⟩ := h
  have h1 : table.Fields.filter (columnChanged (J.Unmarshal (J.Marshal table))) = [] := by
    rw [List.filter_eq_nil_iff]
    intro p hp
    simp [columnChanged, hf p hp]
  have h2 : table.Indexs.filter (indexAbsent (J.Unmarshal (J.Marshal table))) = [] := by
    rw [List.filter_eq_nil_iff]
    intro p hp
    have := hi p hp
    simp only [indexAbsent]
    cases hl : List.lookup p.1 (J.Unmarshal (J.Marshal table)).Indexs with
    | none => rw [hl] at this; simp at this
    | some x => simp
  simp [migrationDDL, h1, h2]

theorem filter_name_map_scheme (rows : List SchemeRow) (tbname : String) (id : Int)
    (doc : String) :
    (rows.map (fun r => if r.id = id then { r with scheme := doc } else r)).filter
        (fun r => decide (r.name = tbname))
      = (rows.filter (fun r => decide (r.name = tbname))).map
        (fun r => if r.id = id then { r with scheme := doc } else r) := by
  rw [List.filter_map]
  congr 1
  apply List.filter_congr
  intro r _
  simp only [Function.comp]
  split <;> rfl

/-- C1.  Idempotent migration: when a run of `DBBuild` returns nil and the
stored form of the descriptor decodes to the same columns and index names, a
second run with the same descriptor and table-name part (and any
auto-increment value) on the resulting database returns nil and leaves the
database exactly as it found it; in particular the list of statements handed
to `db.Exec` does not grow: no ALTER TABLE, no CREATE INDEX, no CREATE TABLE
and no write to `__scheme`. -/
theorem DBBuild_idempotent (J : JSON) (db : DB) (table : DBTable) (pfx : String)
    (n n' : Int) (hrt : roundTrips J table)
    (hok : (DBBuild J db table pfx n).2 = .returned none) :
    DBBuild J (DBBuild J db table pfx n).1 table pfx n'
        = ((DBBuild J db table pfx n).1, .returned none)
      ∧ (DBBuild J (DBBuild J db table pfx n).1 table pfx n').1.log
        = (DBBuild J db table pfx n).1.log := by
  have hddl := migrationDDL_roundTrips J table (pfx ++ table.Name) hrt
  have key : DBBuild J (DBBuild J db table pfx n).1 table pfx n'
      = ((DBBuild J db table pfx n).1, .returned none) := by
    rw [DBBuild_eq J db] at hok ⊢
    cases hq : db.queryErr with
    | some e => rw [hq] at hok; simp at hok
    | none =>
      rw [hq] at hok
      simp only at hok ⊢
      cases hf : db.scheme.filter (fun r => decide (r.name = pfx ++ table.Name)) with
      | nil =>
        rw [hf] at hok
        simp only at hok ⊢
        obtain ⟨_, hsch, hqe, _⟩ := buildNew_returned J db table (pfx ++ table.Name) n hok
        rw [DBBuild_eq, hqe, hq]
        simp only [hsch, List.filter_append, hf, List.nil_append, List.filter_cons,
          decide_True, if_true, List.filter_nil]
        exact buildExisting_noop J _ table _ _ _ hddl
      | cons row rest =>
        rw [hf] at hok
        simp only at hok ⊢
        obtain ⟨_, hsch, hqe, _⟩ :=
          buildExisting_returned J db table (pfx ++ table.Name) row.id row.scheme hok
        rw [DBBuild_eq, hqe, hq]
        simp only
        cases he : (migrationDDL (pfx ++ table.Name) (J.Unmarshal row.scheme) table).isEmpty with
        | true =>
          rw [he] at hsch
          simp only [if_true] at hsch
          rw [hsch, hf]
          simp only
          have hnil : migrationDDL (pfx ++ table.Name) (J.Unmarshal row.scheme) table = [] :=
            List.isEmpty_iff.mp he
          rw [buildExisting_noop J db table _ _ _ hnil]
          exact buildExisting_noop J db table _ _ _ hnil
        | false =>
          rw [he] at hsch
          simp only [Bool.false_eq_true, if_false] at hsch
          rw [hsch, filter_name_map_scheme, hf]
          simp only [List.map_cons, if_true]
          exact buildExisting_noop J _ table _ _ _ hddl
  exact ⟨key, by rw [key]⟩

/-- Witness of C1 on the scenario of the specification: the first run on an
empty registry returns nil, the stored text decodes back, and the second run
changes nothing. -/
theorem DBBuild_idempotent_witness :
    roundTrips exampleJSON userTable
      ∧ (DBBuild exampleJSON emptyDB userTable "app_" 1000).2 = .returned none
      ∧ (DBBuild exampleJSON (DBBuild exampleJSON emptyDB userTable "app_" 1000).1
            userTable "app_" 1000).1.log
          = (DBBuild exampleJSON emptyDB userTable "app_" 1000).1.log :=
  ⟨by constructor <;> decide, by decide,
   (DBBuild_idempotent exampleJSON emptyDB userTable "app_" 1000 1000
      (by constructor <;> decide) (by decide)).2⟩

/-! ## C2: the existing-row path is additive -/

theorem startsWith_append (p x : String) : startsWith (p ++ x) p := by
  simp [startsWith, String.data_append]

theorem not_drop_of_startsWith (s p : String) (hp : startsWith s p)
    (hlen : "DROP".data.length ≤ p.data.length) (hne : ¬ "DROP".data <+: p.data) :
    ¬ startsWith s "DROP" := by
  intro hd
  exact hne (List.prefix_of_prefix_length_le hd hp hlen)

theorem columnStmt_startsWith (tbname : String) (S : DBTable) (p : String × DBField) :
    startsWith (columnStmt tbname S p).sql "ALTER TABLE " := by
  simp only [columnStmt]
  split <;> simp only [String.append_assoc] <;> exact startsWith_append _ _

theorem indexStmt_startsWith (tbname : String) (p : String × DBIndex) :
    startsWith (indexStmt tbname p).sql "CREATE " := by
  simp only [indexStmt, createIndexSQL]
  split
  · have : "CREATE UNIQUE INDEX IF NOT EXISTS  " = "CREATE " ++ "UNIQUE INDEX IF NOT EXISTS  " := by
      decide
    rw [this]
    simp only [String.append_assoc]
    exact startsWith_append _ _
  · have : "CREATE INDEX IF NOT EXISTS  " = "CREATE " ++ "INDEX IF NOT EXISTS  " := by decide
    rw [this]
    simp only [String.append_assoc]
    exact startsWith_append _ _

theorem mem_migrationDDL (tbname : String) (S D : DBTable) (st : Stmt) :
    st ∈ migrationDDL tbname S D ↔
      (∃ p ∈ D.Fields, columnChanged S p = true ∧ st = columnStmt tbname S p)
        ∨ (∃ p ∈ D.Indexs, indexAbsent S p = true ∧ st = indexStmt tbname p) := by
  simp only [migrationDDL, List.mem_append, List.mem_map, List.mem_filter]
  constructor
  · rintro (⟨p, ⟨h1, h2⟩, rfl⟩ | ⟨p, ⟨h1, h2⟩, rfl⟩)
    · exact Or.inl ⟨p, h1, h2, rfl⟩
    · exact Or.inr ⟨p, h1, h2, rfl⟩
  · rintro (⟨p, h1, h2, rfl⟩ | ⟨p, h1, h2, rfl⟩)
    · exact Or.inl ⟨p, ⟨h1, h2⟩, rfl⟩
    · exact Or.inr ⟨p, ⟨h1, h2⟩, rfl⟩

theorem DBBuild_existing (J : JSON) (db : DB) (table : DBTable) (pfx : String) (n : Int)
    (row : SchemeRow) (rest : List SchemeRow)
    (hq : db.Query "SELECT * FROM __scheme WHERE name=?" [GoValue.str (pfx ++ table.Name)]
      = .ok (row :: rest)) :
    DBBuild J db table pfx n
      = buildExisting J db table (pfx ++ table.Name) row.id row.scheme := by
  obtain ⟨h1, h2⟩ := (Query_ok_iff _ _ _).mp hq
  rw [DBBuild_eq, h1, h2]

/-- C2.  Additive-only migration.  Let the registry hold a row for the table
and let `S` be the descriptor decoded from it.  Then (1) whatever happens,
the statements `DBBuild` hands to `db.Exec` are an initial part of the DDL of
`migrationDDL` followed by the registry write; (2) when `DBBuild` returns nil
they are all of them; (3) a statement is in that DDL exactly when it is the
statement of a column of the desired descriptor that is absent from `S` or
stored with another `Type` or `Length`, or of an index of the desired
descriptor whose name is absent from `S`; (4) there is one statement per such
column and index; (5) every such statement begins with `ALTER TABLE ` or
`CREATE ` and none begins with `DROP`. -/
theorem DBBuild_additive (J : JSON) (db : DB) (table : DBTable) (pfx : String) (n : Int)
    (row : SchemeRow) (rest : List SchemeRow)
    (hq : db.Query "SELECT * FROM __scheme WHERE name=?" [GoValue.str (pfx ++ table.Name)]
      = .ok (row :: rest)) :
    (∃ k, (DBBuild J db table pfx n).1.log = db.log
        ++ (migrationStmts J (pfx ++ table.Name) (J.Unmarshal row.scheme) table row.id).take k)
      ∧ ((DBBuild J db table pfx n).2 = .returned none →
          (DBBuild J db table pfx n).1.log = db.log
            ++ migrationDDL (pfx ++ table.Name) (J.Unmarshal row.scheme) table
            ++ (if (migrationDDL (pfx ++ table.Name) (J.Unmarshal row.scheme) table).isEmpty
                then [] else [registryUpdate J table row.id]))
      ∧ (∀ st, st ∈ migrationDDL (pfx ++ table.Name) (J.Unmarshal row.scheme) table ↔
          (∃ p ∈ table.Fields, columnChanged (J.Unmarshal row.scheme) p = true
              ∧ st = columnStmt (pfx ++ table.Name) (J.Unmarshal row.scheme) p)
            ∨ (∃ p ∈ table.Indexs, indexAbsent (J.Unmarshal row.scheme) p = true
              ∧ st = indexStmt (pfx ++ table.Name) p))
      ∧ (migrationDDL (pfx ++ table.Name) (J.Unmarshal row.scheme) table).length
          = table.Fields.countP (columnChanged (J.Unmarshal row.scheme))
            + table.Indexs.countP (indexAbsent (J.Unmarshal row.scheme))
      ∧ (∀ st ∈ migrationDDL (pfx ++ table.Name) (J.Unmarshal row.scheme) table,
          (startsWith st.sql "ALTER TABLE " ∨ startsWith st.sql "CREATE ")
            ∧ ¬ startsWith st.sql "DROP") := by
  rw [DBBuild_existing J db table pfx n row rest hq]
  refine ⟨buildExisting_log J db table _ _ _, ?_, mem_migrationDDL _ _ _, ?_, ?_⟩
  · intro h
    have := (buildExisting_returned J db table _ _ _ h).1
    rw [this, migrationStmts, List.append_assoc]
  · simp [migrationDDL, List.countP_eq_length_filter]
  · intro st hst
    rcases (mem_migrationDDL _ _ _ _).mp hst with ⟨p, _, _, rfl⟩ | ⟨p, _, _, rfl⟩
    · exact ⟨Or.inl (columnStmt_startsWith _ _ _),
        not_drop_of_startsWith _ _ (columnStmt_startsWith _ _ _) (by decide) (by decide)⟩
    · exact ⟨Or.inr (indexStmt_startsWith _ _),
        not_drop_of_startsWith _ _ (indexStmt_startsWith _ _) (by decide) (by decide)⟩

/-- Witness of C2: `userTableV2` against the registered `userTable`. -/
theorem DBBuild_additive_witness :
    registeredDB.Query "SELECT * FROM __scheme WHERE name=?"
        [GoValue.str ("app_" ++ userTableV2.Name)]
        = .ok ({ id := 1, name := "app_user", scheme := jsonDBTable userTable } :: [])
      ∧ (DBBuild exampleJSON registeredDB userTableV2 "app_" 1000).2 = .returned none
      ∧ (DBBuild exampleJSON registeredDB userTableV2 "app_" 1000).1.log = registeredDB.log
          ++ migrationDDL ("app_" ++ userTableV2.Name)
              (exampleJSON.Unmarshal (jsonDBTable userTable)) userTableV2
          ++ (if (migrationDDL ("app_" ++ userTableV2.Name)
                (exampleJSON.Unmarshal (jsonDBTable userTable)) userTableV2).isEmpty
              then [] else [registryUpdate exampleJSON userTableV2 1]) :=
  ⟨rfl, by decide,
   (DBBuild_additive exampleJSON registeredDB userTableV2 "app_" 1000
      { id := 1, name := "app_user", scheme := jsonDBTable userTable } [] rfl).2.1
      (by decide)⟩

/-! ## C3: the statement of a migrated column -/

/-- C3, as stated, fails.  The column `age` of `userTableV2` is absent from
the stored descriptor; the run returns nil; the statement the claim names,
`ALTER TABLE app_user CHANGE age age INT;`, is not executed; what is executed
for `age` is `ALTER TABLE app_user ADD COLUMN age INT;`. -/
theorem DBBuild_absent_column_is_added :
    ("age", ({ Length := 0, Type_ := DBFieldTypeInt } : DBField)) ∈ userTableV2.Fields
      ∧ (exampleJSON.Unmarshal (jsonDBTable userTable)).Fields.lookup "age" = none
      ∧ (DBBuild exampleJSON registeredDB userTableV2 "app_" 1000).2 = .returned none
      ∧ ({ sql := "ALTER TABLE app_user CHANGE age age INT;", args := [] } : Stmt)
          ∉ (DBBuild exampleJSON registeredDB userTableV2 "app_" 1000).1.log
      ∧ (DBBuild exampleJSON registeredDB userTableV2 "app_" 1000).1.log =
          [{ sql := "ALTER TABLE app_user ADD COLUMN age INT;", args := [] },
           { sql := "ALTER TABLE app_user CHANGE name name VARCHAR(64);", args := [] },
           { sql := "CREATE UNIQUE INDEX IF NOT EXISTS  age ON app_user (age DESC);",
             args := [] },
           { sql := "UPDATE __scheme SET scheme=? WHERE id=?",
             args := [GoValue.str (jsonDBTable userTableV2), GoValue.int 64 1] }] := by
  decide

/-- C3, amended.  On the existing-row path of a run that returns nil, for
every column `c` of the desired descriptor: when `c` is absent from the
stored descriptor the statement executed for it is
`ALTER TABLE <table> ADD COLUMN c <new-type>;`, and when `c` is stored with
another `Type` or `Length` it is `ALTER TABLE <table> CHANGE c c <new-type>;`,
where `<new-type>` is the `DBType()` of the desired column. -/
theorem DBBuild_column_statement (J : JSON) (db : DB) (table : DBTable) (pfx : String)
    (n : Int) (row : SchemeRow) (rest : List SchemeRow)
    (hq : db.Query "SELECT * FROM __scheme WHERE name=?" [GoValue.str (pfx ++ table.Name)]
      = .ok (row :: rest))
    (hok : (DBBuild J db table pfx n).2 = .returned none)
    (c : String) (f : DBField) (hmem : (c, f) ∈ table.Fields) :
    ((J.Unmarshal row.scheme).Fields.lookup c = none →
        ({ sql := "ALTER TABLE " ++ (pfx ++ table.Name) ++ " ADD COLUMN " ++ c ++ " "
            ++ f.DBType ++ ";", args := [] } : Stmt)
          ∈ (DBBuild J db table pfx n).1.log.drop db.log.length)
      ∧ (∀ fd, (J.Unmarshal row.scheme).Fields.lookup c = some fd →
          (fd.Type_ ≠ f.Type_ ∨ fd.Length ≠ f.Length) →
          ({ sql := "ALTER TABLE " ++ (pfx ++ table.Name) ++ " CHANGE " ++ c ++ " " ++ c
              ++ " " ++ f.DBType ++ ";", args := [] } : Stmt)
            ∈ (DBBuild J db table pfx n).1.log.drop db.log.length) := by
  rw [DBBuild_existing J db table pfx n row rest hq] at hok ⊢
  have hlog := (buildExisting_returned J db table _ _ _ hok).1
  have hsub : ∀ st, st ∈ migrationDDL (pfx ++ table.Name) (J.Unmarshal row.scheme) table →
      st ∈ (buildExisting J db table (pfx ++ table.Name) row.id row.scheme).1.log.drop
        db.log.length := by
    intro st hst
    rw [hlog, List.drop_left, migrationStmts]
    exact List.mem_append_left _ hst
  constructor
  · intro hnone
    apply hsub
    rw [mem_migrationDDL]
    refine Or.inl ⟨(c, f), hmem, ?_, ?_⟩
    · simp [columnChanged, hnone]
    · simp [columnStmt, hnone]
  · intro fd hsome hdiff
    apply hsub
    rw [mem_migrationDDL]
    refine Or.inl ⟨(c, f), hmem, ?_, ?_⟩
    · simp only [columnChanged, hsome]; exact decide_eq_true hdiff
    · simp [columnStmt, hsome]

/-- Witness of C3 amended: the column `name` of `userTableV2`, stored with
length 45 and now of length 64. -/
theorem DBBuild_column_statement_witness :
    registeredDB.Query "SELECT * FROM __scheme WHERE name=?"
        [GoValue.str ("app_" ++ userTableV2.Name)]
        = .ok ({ id := 1, name := "app_user", scheme := jsonDBTable userTable } :: [])
      ∧ (DBBuild exampleJSON registeredDB userTableV2 "app_" 1000).2 = .returned none
      ∧ ("name", ({ Length := 64, Type_ := DBFieldTypeString } : DBField)) ∈ userTableV2.Fields
      ∧ ({ sql := "ALTER TABLE " ++ ("app_" ++ userTableV2.Name) ++ " CHANGE " ++ "name" ++ " "
            ++ "name" ++ " " ++ ({ Length := 64, Type_ := DBFieldTypeString } : DBField).DBType
            ++ ";", args := [] } : Stmt)
          ∈ (DBBuild exampleJSON registeredDB userTableV2 "app_" 1000).1.log.drop
              registeredDB.log.length :=
  ⟨rfl, by decide, by decide,
   (DBBuild_column_statement exampleJSON registeredDB userTableV2 "app_" 1000
      { id := 1, name := "app_user", scheme := jsonDBTable userTable } [] rfl (by decide)
      "name" { Length := 64, Type_ := DBFieldTypeString } (by decide)).2
      { Length := 45, Type_ := DBFieldTypeString } (by decide) (by decide)⟩

/-! ## C4: the statement of a new index -/

/-- C4 at the failing input.  The index `byname` of `userTableByName` has
`Field = "name"` and is absent from the stored descriptor.  The statement the
claim describes, with indexed column `name`, is not executed; the statement
that is executed indexes a column called `byname`. -/
theorem DBBuild_index_ignores_Field :
    ("byname", ({ Field := "name", Type_ := DBIndexTypeAsc, Unique := false } : DBIndex))
        ∈ userTableByName.Indexs
      ∧ (exampleJSON.Unmarshal (jsonDBTable userTable)).Indexs.lookup "byname" = none
      ∧ createIndexSQL false "byname" "app_user" "name" "ASC"
          = "CREATE INDEX IF NOT EXISTS  byname ON app_user (name ASC);"
      ∧ ({ sql := createIndexSQL false "byname" "app_user" "name" "ASC", args := [] } : Stmt)
          ∉ (DBBuild exampleJSON registeredDB userTableByName "app_" 1000).1.log
      ∧ (DBBuild exampleJSON registeredDB userTableByName "app_" 1000).1.log =
          [{ sql := "CREATE INDEX IF NOT EXISTS  byname ON app_user (byname ASC);",
             args := [] },
           { sql := "UPDATE __scheme SET scheme=? WHERE id=?",
             args := [GoValue.str (jsonDBTable userTableByName), GoValue.int 64 1] }] := by
  decide

/-! ## C5: the new-table path -/

theorem DBBuild_new (J : JSON) (db : DB) (table : DBTable) (pfx : String) (n : Int)
    (hq : db.Query "SELECT * FROM __scheme WHERE name=?" [GoValue.str (pfx ++ table.Name)]
      = .ok []) :
    DBBuild J db table pfx n = buildNew J db table (pfx ++ table.Name) n := by
  obtain ⟨h1, h2⟩ := (Query_ok_iff _ _ _).mp hq
  rw [DBBuild_eq, h1, h2]

/-- C5.  New-table path: when the registry has no row named `prefix+name`
and `DBBuild` returns nil, it has handed exactly two statements to `db.Exec`,
in this order.  The first is `CREATE TABLE IF NOT EXISTS <prefix+name> (`,
the comma-separated column definitions (the key column first, as
`BIGINT NOT NULL AUTO_INCREMENT`, when `Key` is not empty, then
`<name> <DBType>` for each entry of `Fields`), the `PRIMARY KEY` clause when
`Key` is not empty, one `INDEX` or `UNIQUE INDEX` clause per entry of
`Indexs`, and ` ) AUTO_INCREMENT = <auto_increment>;` when `Key` is not empty
and ` ) ;` otherwise.  The second is the `INSERT INTO __scheme(name,scheme)`
with the arguments `prefix+name` and the JSON text of the descriptor.  The
registry has gained exactly one row, with that name and that text. -/
theorem DBBuild_new_table (J : JSON) (db : DB) (table : DBTable) (pfx : String) (n : Int)
    (hq : db.Query "SELECT * FROM __scheme WHERE name=?" [GoValue.str (pfx ++ table.Name)]
      = .ok [])
    (hok : (DBBuild J db table pfx n).2 = .returned none) :
    (DBBuild J db table pfx n).1.log = db.log ++
        [{ sql := "CREATE TABLE IF NOT EXISTS " ++ (pfx ++ table.Name) ++ " ("
              ++ String.intercalate "," (keyColumnDefs table ++ table.Fields.map columnDef)
              ++ (if table.Key ≠ "" then ", PRIMARY KEY(" ++ table.Key ++ ") " else "")
              ++ String.join (table.Indexs.map indexClause)
              ++ (if table.Key ≠ "" then " ) AUTO_INCREMENT = " ++ fmtInt n ++ ";"
                  else " ) ;"),
           args := [] },
         { sql := "INSERT INTO __scheme(name,scheme) VALUES(?,?)",
           args := [GoValue.str (pfx ++ table.Name), GoValue.str (J.Marshal table)] }]
      ∧ (DBBuild J db table pfx n).1.scheme = db.scheme ++
        [{ id := nextId db.scheme, name := pfx ++ table.Name, scheme := J.Marshal table }] := by
  rw [DBBuild_new J db table pfx n hq] at hok ⊢
  obtain ⟨h1, h2, _, _⟩ := buildNew_returned J db table _ n hok
  rw [h1, h2, createTableSQL_eq]
  exact ⟨rfl, rfl⟩

/-- Witness of C5, the scenario of the specification: `userTable` with the
table-name part `app_` and auto-increment 1000 on an empty registry. -/
theorem DBBuild_new_table_witness :
    emptyDB.Query "SELECT * FROM __scheme WHERE name=?" [GoValue.str ("app_" ++ userTable.Name)]
        = .ok []
      ∧ (DBBuild exampleJSON emptyDB userTable "app_" 1000).2 = .returned none
      ∧ (DBBuild exampleJSON emptyDB userTable "app_" 1000).1.scheme = emptyDB.scheme ++
          [{ id := nextId emptyDB.scheme, name := "app_" ++ userTable.Name,
             scheme := exampleJSON.Marshal userTable }]
      ∧ (DBBuild exampleJSON emptyDB userTable "app_" 1000).1.log =
          [{ sql := "CREATE TABLE IF NOT EXISTS app_user (id BIGINT NOT NULL AUTO_INCREMENT,name VARCHAR(45), PRIMARY KEY(id) ,INDEX name (name ASC) ) AUTO_INCREMENT = 1000;",
             args := [] },
           { sql := "INSERT INTO __scheme(name,scheme) VALUES(?,?)",
             args := [GoValue.str "app_user", GoValue.str (jsonDBTable userTable)] }] :=
  ⟨rfl, by decide,
   (DBBuild_new_table exampleJSON emptyDB userTable "app_" 1000 rfl (by decide)).2,
   by decide⟩

/-! ## The loop of `DBInsert` -/

theorem take_set_succ (fs : List GoValue) (n : Nat) (v : GoValue) (h : n < fs.length) :
    (fs.set n v).take (n + 1) = fs.take n ++ [v] := by
  induction fs generalizing n with
  | nil => simp at h
  | cons a rest ih =>
    cases n with
    | zero => simp
    | succ m =>
      simp only [List.length_cons, Nat.add_lt_add_iff_right] at h
      simp [ih m h]

theorem commaList_nil (n : Nat) : commaList n [] = "" := by
  unfold commaList
  split <;> rfl

theorem commaList_cons (n : Nat) (a : String) (l : List String) :
    commaList n (a :: l) = (if n = 0 then a else "," ++ a) ++ commaList (n + 1) l := by
  unfold commaList
  by_cases hn : n = 0
  · simp [hn, intercalate_cons]
  · simp [hn, join_cons]

theorem commaList_zero (l : List String) : commaList 0 l = String.intercalate "," l := by
  simp [commaList]

theorem isBound_of_key (ToLower : String → String) (table : DBTable) (fd : StructField)
    (h : ToLower fd.Name = table.Key) : isBound ToLower table fd = false := by
  simp [isBound, h]

theorem isBound_of_lookup_none (ToLower : String → String) (table : DBTable)
    (fd : StructField) (h : table.Fields.lookup (ToLower fd.Name) = none) :
    isBound ToLower table fd = false := by
  simp [isBound, h]

theorem isBound_of_lookup_some (ToLower : String → String) (table : DBTable)
    (fd : StructField) (x : DBField) (hk : ToLower fd.Name ≠ table.Key)
    (h : table.Fields.lookup (ToLower fd.Name) = some x) :
    isBound ToLower table fd = true := by
  simp [isBound, h, hk]

theorem insertLoop_ok (ToLower : String → String) (table : DBTable) :
    ∀ (l : List StructField) (i : Nat) (st : InsertState),
    (∀ fd ∈ l, isBound ToLower table fd = true → fd.exported = true) →
    st.n + (l.filter (isBound ToLower table)).length ≤ st.fs.length →
    ∃ st1, insertLoop ToLower table l i st = .ok st1
      ∧ st1.s = st.s ++ commaList st.n
          ((l.filter (isBound ToLower table)).map (fun fd => ToLower fd.Name))
      ∧ st1.w = st.w ++ commaList st.n
          ((l.filter (isBound ToLower table)).map (fun _ => "?"))
      ∧ st1.n = st.n + (l.filter (isBound ToLower table)).length
      ∧ st1.fs.length = st.fs.length
      ∧ st1.fs.take st1.n
          = st.fs.take st.n ++ (l.filter (isBound ToLower table)).map (fun fd => fd.value)
      ∧ st1.key = (match keyFieldFrom ToLower table l i with
                   | some j => some j
                   | none => st.key) := by
  intro l
  induction l with
  | nil =>
    intro i st _ _
    exact ⟨st, rfl, by simp [commaList_nil], by simp [commaList_nil], by simp, rfl,
      by simp, rfl⟩
  | cons fd rest ih =>
    intro i st hexp hlen
    have hexp1 : ∀ f ∈ rest, isBound ToLower table f = true → f.exported = true :=
      fun f hf => hexp f (List.mem_cons_of_mem _ hf)
    by_cases hk : ToLower fd.Name = table.Key
    · have hb := isBound_of_key ToLower table fd hk
      simp only [List.filter_cons, hb] at hlen ⊢
      obtain ⟨st1, h1, h2, h3, h4, h5, h6, h7⟩ :=
        ih (i + 1) { st with key := some i } hexp1 hlen
      refine ⟨st1, ?_, h2, h3, h4, h5, h6, ?_⟩
      · simp only [insertLoop, hk, if_true]
        exact h1
      · rw [h7]
        simp only [keyFieldFrom, hk, if_true]
        cases keyFieldFrom ToLower table rest (i + 1) <;> rfl
    · cases hlk : table.Fields.lookup (ToLower fd.Name) with
      | none =>
        have hb := isBound_of_lookup_none ToLower table fd hlk
        simp only [List.filter_cons, hb] at hlen ⊢
        obtain ⟨st1, h1, h2, h3, h4, h5, h6, h7⟩ := ih (i + 1) st hexp1 hlen
        refine ⟨st1, ?_, h2, h3, h4, h5, h6, ?_⟩
        · simp only [insertLoop, hk, if_false, hlk]
          exact h1
        · rw [h7]
          simp only [keyFieldFrom, hk, if_false]
          cases keyFieldFrom ToLower table rest (i + 1) <;> rfl
      | some x =>
        have hb := isBound_of_lookup_some ToLower table fd x hk hlk
        have hex : fd.exported = true := hexp fd (List.mem_cons_self _ _) hb
        simp only [List.filter_cons, hb, if_true, List.length_cons] at hlen ⊢
        have hn : st.n < st.fs.length := by omega
        obtain ⟨st1, h1, h2, h3, h4, h5, h6, h7⟩ :=
          ih (i + 1)
            { st with s := (if st.n ≠ 0 then st.s ++ "," else st.s) ++ ToLower fd.Name,
                      w := (if st.n ≠ 0 then st.w ++ "," else st.w) ++ "?",
                      fs := st.fs.set st.n fd.value, n := st.n + 1 }
            hexp1 (by simp only [List.length_set]; omega)
        refine ⟨st1, ?_, ?_, ?_, ?_, ?_, ?_, ?_⟩
        · simp only [insertLoop, hk, if_false, hlk, StructField.Interface, hex, if_true,
            setIndex, hn]
          exact h1
        · rw [h2]
          simp only [List.map_cons, commaList_cons]
          by_cases h0 : st.n = 0 <;> simp [h0, String.append_assoc]
        · rw [h3]
          simp only [List.map_cons, commaList_cons]
          by_cases h0 : st.n = 0 <;> simp [h0, String.append_assoc]
        · rw [h4]; simp only; omega
        · rw [h5]; simp
        · rw [h6]
          simp only [List.map_cons]
          rw [take_set_succ _ _ _ hn]
          simp
        · rw [h7]
          simp only [keyFieldFrom, hk, if_false]
          cases keyFieldFrom ToLower table rest (i + 1) <;> rfl

/-- The statement of `DBInsert` in closed form, for a record whose bound
fields are exported and no more numerous than the columns. -/
theorem insertStmt_ok (ToLower : String → String) (table : DBTable) (pfx : String)
    (object : Record)
    (hexp : ∀ fd ∈ object, isBound ToLower table fd = true → fd.exported = true)
    (hlen : (boundFields ToLower table object).length ≤ table.Fields.length) :
    insertStmt ToLower table pfx object = .ok
      ({ sql := "INSERT INTO " ++ (pfx ++ table.Name) ++ "("
            ++ String.intercalate "," (boundColumns ToLower table object) ++ ")"
            ++ " VALUES ("
            ++ String.intercalate ","
                (List.replicate (boundColumns ToLower table object).length "?")
            ++ ")",
         args := boundValues ToLower table object },
       keyField ToLower table object) := by
  obtain ⟨st1, h1, h2, h3, h4, h5, h6, h7⟩ :=
    insertLoop_ok ToLower table object 0
      { s := "INSERT INTO " ++ (pfx ++ table.Name) ++ "(", w := " VALUES (",
        fs := List.replicate table.Fields.length GoValue.nil, n := 0, key := none }
      hexp (by simpa [boundFields] using hlen)
  simp only [insertStmt, h1]
  simp only [commaList_zero] at h2 h3
  simp only [List.take_zero, List.nil_append, Nat.zero_add] at h4 h6
  have hrep : List.map (fun _ => "?") (List.filter (isBound ToLower table) object)
      = List.replicate (boundColumns ToLower table object).length "?" := by
    simp [boundColumns, boundFields, List.map_const']
  have hkey : st1.key = keyField ToLower table object := by
    rw [h7, keyField]
    cases keyFieldFrom ToLower table object 0 <;> rfl
  rw [h2, h3, h6, hkey, hrep]
  simp only [boundColumns, boundFields, boundValues, String.append_assoc]

theorem lookup_some_mem : ∀ (l : List (String × DBField)) (k : String) (x : DBField),
    l.lookup k = some x → (k, x) ∈ l := by
  intro l
  induction l with
  | nil => intro k x h; simp at h
  | cons p rest ih =>
    intro k x h
    obtain ⟨k1, v⟩ := p
    by_cases hk : k = k1
    · subst hk
      simp only [List.lookup_cons, beq_self_eq_true, Option.some.injEq] at h
      subst h
      exact List.mem_cons_self _ _
    · have hbeq : (k == k1) = false := by simpa using hk
      simp only [List.lookup_cons, hbeq] at h
      exact List.mem_cons_of_mem _ (ih k x h)

/-- When the lower-cased names of the record's fields are pairwise distinct,
the bound fields are not more numerous than the columns. -/
theorem boundFields_length_le (ToLower : String → String) (table : DBTable)
    (object : Record) (hnd : (object.map (fun fd => ToLower fd.Name)).Nodup) :
    (boundFields ToLower table object).length ≤ table.Fields.length := by
  have hsub : List.Sublist (boundColumns ToLower table object)
      (object.map (fun fd => ToLower fd.Name)) := by
    simp only [boundColumns, boundFields]
    exact List.Sublist.map _ (List.filter_sublist _)
  have hnd2 : (boundColumns ToLower table object).Nodup := hnd.sublist hsub
  have hss : boundColumns ToLower table object ⊆ table.Fields.map Prod.fst := by
    intro c hc
    simp only [boundColumns, boundFields, List.mem_map, List.mem_filter] at hc
    obtain ⟨fd, ⟨_, hb⟩, rfl⟩ := hc
    simp only [isBound, Bool.and_eq_true] at hb
    cases hl : List.lookup (ToLower fd.Name) table.Fields with
    | none => rw [hl] at hb; simp at hb
    | some x =>
      have hmem : (ToLower fd.Name, x) ∈ table.Fields := lookup_some_mem _ _ _ hl
      exact List.mem_map.mpr ⟨(ToLower fd.Name, x), hmem, rfl⟩
  have := (List.subperm_of_subset hnd2 hss).length_le
  simpa [boundColumns] using this

/-! ## C6: the statement of `DBInsert` -/

theorem DBInsert_fst (ToLower : String → String) (db : DB) (table : DBTable) (pfx : String)
    (object : Record) (st : Stmt) (key : Option Nat)
    (h : insertStmt ToLower table pfx object = .ok (st, key)) :
    (DBInsert ToLower db table pfx object).1 = (db.Exec st.sql st.args).1 := by
  simp only [DBInsert, h]
  rcases db.Exec st.sql st.args with ⟨d, res⟩
  simp only
  cases writeBack object key res <;> rfl

theorem DBInsert_snd (ToLower : String → String) (db : DB) (table : DBTable) (pfx : String)
    (object : Record) (st : Stmt) (key : Option Nat)
    (h : insertStmt ToLower table pfx object = .ok (st, key)) :
    (DBInsert ToLower db table pfx object).2 =
      match writeBack object key (db.answer st) with
      | .error p => .error p
      | .ok object1 => .ok (object1, db.answer st) := by
  have hs := Exec_snd db st.sql st.args
  simp only [DBInsert, h]
  rcases hx : db.Exec st.sql st.args with ⟨d, res⟩
  rw [hx] at hs
  simp only at hs ⊢
  rw [← hs]
  cases writeBack object key res <;> rfl

/-- C6, as stated, fails.  The record `struct { Id int64; name string }` has a
field whose lower-cased name is the column `name` of `userTable`, so the
claim has `DBInsert` execute `INSERT INTO app_user(name) VALUES (?)`; the
field is not exported, `DBInsert` panics in `Interface()` and hands no
statement to `db.Exec`. -/
theorem DBInsert_unexported_field_panics :
    boundColumns lowerASCII userTable hiddenNameRecord = ["name"]
      ∧ (DBInsert lowerASCII emptyDB userTable "app_" hiddenNameRecord).2
          = .error .unexportedField
      ∧ (DBInsert lowerASCII emptyDB userTable "app_" hiddenNameRecord).1.log = [] :=
  ⟨by decide, rfl, by decide⟩

/-- C6, amended.  For every table descriptor, table-name part and record
whose bound fields (the fields whose lower-cased name is a key of
`table.Fields` and is not `table.Key`) are exported and are not more numerous
than the columns of `table.Fields`, `DBInsert` hands exactly one statement to
`db.Exec`: `INSERT INTO <prefix+name>(c1,...,ck) VALUES (?,...,?)` where
`c1..ck` are the lower-cased names of the bound fields in declaration order,
with `k` placeholders and with the values of those `k` fields, in the same
order, as arguments.  Fields that are not bound give no column, placeholder
or argument, and the key column is never in the column list. -/
theorem DBInsert_statement (ToLower : String → String) (db : DB) (table : DBTable)
    (pfx : String) (object : Record)
    (hexp : ∀ fd ∈ object, isBound ToLower table fd = true → fd.exported = true)
    (hlen : (boundFields ToLower table object).length ≤ table.Fields.length) :
    (DBInsert ToLower db table pfx object).1.log = db.log ++
        [{ sql := "INSERT INTO " ++ (pfx ++ table.Name) ++ "("
              ++ String.intercalate "," (boundColumns ToLower table object) ++ ")"
              ++ " VALUES ("
              ++ String.intercalate ","
                  (List.replicate (boundColumns ToLower table object).length "?")
              ++ ")",
           args := boundValues ToLower table object }]
      ∧ boundColumns ToLower table object
          = (object.filter (fun fd => decide (ToLower fd.Name ≠ table.Key)
              && (table.Fields.lookup (ToLower fd.Name)).isSome)).map
              (fun fd => ToLower fd.Name)
      ∧ boundValues ToLower table object
          = (object.filter (fun fd => decide (ToLower fd.Name ≠ table.Key)
              && (table.Fields.lookup (ToLower fd.Name)).isSome)).map (fun fd => fd.value)
      ∧ (boundValues ToLower table object).length
          = (boundColumns ToLower table object).length
      ∧ table.Key ∉ boundColumns ToLower table object := by
  have hst := insertStmt_ok ToLower table pfx object hexp hlen
  refine ⟨?_, rfl, rfl, by simp [boundValues, boundColumns], ?_⟩
  · rw [DBInsert_fst ToLower db table pfx object _ _ hst, Exec_fst_log]
  · intro hmem
    simp only [boundColumns, boundFields, List.mem_map, List.mem_filter] at hmem
    obtain ⟨fd, ⟨_, hb⟩, hk⟩ := hmem
    simp only [isBound, Bool.and_eq_true, decide_eq_true_eq] at hb
    exact hb.1 hk

/-- Witness of C6 amended: the field `Nick` has no column and is left out,
the key field `Id` is not in the column list. -/
theorem DBInsert_statement_witness :
    (∀ fd ∈ annRecord, isBound lowerASCII userTable fd = true → fd.exported = true)
      ∧ (boundFields lowerASCII userTable annRecord).length ≤ userTable.Fields.length
      ∧ (DBInsert lowerASCII emptyDB userTable "app_" annRecord).1.log = emptyDB.log ++
          [{ sql := "INSERT INTO " ++ ("app_" ++ userTable.Name) ++ "("
                ++ String.intercalate "," (boundColumns lowerASCII userTable annRecord) ++ ")"
                ++ " VALUES ("
                ++ String.intercalate ","
                    (List.replicate (boundColumns lowerASCII userTable annRecord).length "?")
                ++ ")",
             args := boundValues lowerASCII userTable annRecord }]
      ∧ (DBInsert lowerASCII emptyDB userTable "app_" annRecord).1.log
          = [{ sql := "INSERT INTO app_user(name) VALUES (?)", args := [.str "ann"] }] :=
  ⟨by decide, by decide,
   (DBInsert_statement lowerASCII emptyDB userTable "app_" annRecord (by decide)
      (by decide)).1,
   by decide⟩

/-! ## C8: the write-back of the key -/

theorem insertLoop_key (ToLower : String → String) (table : DBTable) :
    ∀ (l : List StructField) (i : Nat) (st st1 : InsertState),
    insertLoop ToLower table l i st = .ok st1 →
    st1.key = (match keyFieldFrom ToLower table l i with
               | some j => some j
               | none => st.key) := by
  intro l
  induction l with
  | nil =>
    intro i st st1 h
    simp only [insertLoop, Except.ok.injEq] at h
    subst h
    rfl
  | cons fd rest ih =>
    intro i st st1 h
    by_cases hk : ToLower fd.Name = table.Key
    · simp only [insertLoop, hk, if_true] at h
      rw [ih _ _ _ h]
      simp only [keyFieldFrom, hk, if_true]
      cases keyFieldFrom ToLower table rest (i + 1) <;> rfl
    · simp only [insertLoop, hk, if_false] at h
      have hgoal : ∀ st2 : InsertState, st2.key = st.key →
          insertLoop ToLower table rest (i + 1) st2 = .ok st1 →
          st1.key = (match keyFieldFrom ToLower table (fd :: rest) i with
                     | some j => some j
                     | none => st.key) := by
        intro st2 hkey h2
        rw [ih _ _ _ h2, hkey]
        simp only [keyFieldFrom, hk, if_false]
        cases keyFieldFrom ToLower table rest (i + 1) <;> rfl
      cases hlk : table.Fields.lookup (ToLower fd.Name) with
      | none =>
        rw [hlk] at h
        exact hgoal st rfl h
      | some x =>
        rw [hlk] at h
        simp only at h
        cases hi : fd.Interface with
        | error p => rw [hi] at h; cases h
        | ok v =>
          rw [hi] at h
          simp only at h
          cases hs : setIndex st.fs st.n v with
          | error p => rw [hs] at h; cases h
          | ok fs1 =>
            rw [hs] at h
            simp only at h
            refine hgoal _ ?_ h
            rfl

theorem insertStmt_key (ToLower : String → String) (table : DBTable) (pfx : String)
    (object : Record) (st : Stmt) (key : Option Nat)
    (h : insertStmt ToLower table pfx object = .ok (st, key)) :
    key = keyField ToLower table object := by
  simp only [insertStmt] at h
  cases hl : insertLoop ToLower table object 0
      { s := "INSERT INTO " ++ (pfx ++ table.Name) ++ "(", w := " VALUES (",
        fs := List.replicate table.Fields.length GoValue.nil, n := 0, key := none } with
  | error p => rw [hl] at h; cases h
  | ok st1 =>
    rw [hl] at h
    simp only [Except.ok.injEq, Prod.mk.injEq] at h
    rw [← h.2, insertLoop_key _ _ _ _ _ _ hl, keyField]
    cases keyFieldFrom ToLower table object 0 <;> rfl

theorem keyFieldFrom_none (ToLower : String → String) (table : DBTable) :
    ∀ (l : List StructField) (i : Nat), keyFieldFrom ToLower table l i = none →
    ∀ g ∈ l, ToLower g.Name ≠ table.Key := by
  intro l
  induction l with
  | nil => intro i _ g hg; simp at hg
  | cons a rest ih =>
    intro i h g hg
    simp only [keyFieldFrom] at h
    cases hr : keyFieldFrom ToLower table rest (i + 1) with
    | some x => rw [hr] at h; cases h
    | none =>
      rw [hr] at h
      simp only at h
      rcases List.mem_cons.mp hg with rfl | hmem
      · intro hc; simp [hc] at h
      · exact ih (i + 1) hr g hmem

theorem keyFieldFrom_some (ToLower : String → String) (table : DBTable) :
    ∀ (l : List StructField) (i j : Nat), keyFieldFrom ToLower table l i = some j →
    i ≤ j ∧ (∃ f, l.get? (j - i) = some f ∧ ToLower f.Name = table.Key)
      ∧ ∀ m g, j - i < m → l.get? m = some g → ToLower g.Name ≠ table.Key := by
  intro l
  induction l with
  | nil => intro i j h; simp [keyFieldFrom] at h
  | cons fd rest ih =>
    intro i j h
    simp only [keyFieldFrom] at h
    cases hr : keyFieldFrom ToLower table rest (i + 1) with
    | some j1 =>
      rw [hr] at h
      simp only [Option.some.injEq] at h
      subst h
      obtain ⟨h1, ⟨f, hf, hfk⟩, h3⟩ := ih (i + 1) j1 hr
      have hji : j1 - i = (j1 - (i + 1)) + 1 := by omega
      refine ⟨by omega, ⟨f, ?_, hfk⟩, ?_⟩
      · rw [hji]; simpa using hf
      · intro m g hm hg
        cases m with
        | zero => omega
        | succ m1 =>
          simp only [List.get?_cons_succ] at hg
          exact h3 m1 g (by omega) hg
    | none =>
      rw [hr] at h
      simp only at h
      by_cases hk : ToLower fd.Name = table.Key
      · simp only [hk, if_true, Option.some.injEq] at h
        subst h
        refine ⟨le_refl _, ⟨fd, by simp, hk⟩, ?_⟩
        intro m g hm hg
        cases m with
        | zero => omega
        | succ m1 =>
          simp only [List.get?_cons_succ] at hg
          intro hgk
          exact keyFieldFrom_none ToLower table rest (i + 1) hr g (List.get?_mem hg) hgk
      · simp [hk] at h

theorem wrapInt_of_range (bits : Nat) (v : Int) (hb : 0 < bits)
    (hlo : -(2 : Int) ^ (bits - 1) ≤ v) (hhi : v < (2 : Int) ^ (bits - 1)) :
    wrapInt bits v = v := by
  unfold wrapInt
  have hpow : (2 : Int) ^ bits = 2 * 2 ^ (bits - 1) := by
    have : bits = (bits - 1) + 1 := by omega
    conv_lhs => rw [this]
    rw [pow_succ]
    ring
  have hpos : (0 : Int) < 2 ^ (bits - 1) := by positivity
  rw [Int.emod_eq_of_lt (by linarith) (by rw [hpow]; linarith)]
  ring

/-- C8, as stated, fails.  (1) The record `struct { Id int32; Name string }`
has a settable integer field whose lower-cased name is `id`; the INSERT
executes without error and the driver reports 2147483648; after `DBInsert`
the field holds -2147483648.  (2) The record `struct { ID int64; Id string }`
has the settable integer field `ID`; the INSERT executes without error;
`DBInsert` takes the last field, `Id`, as the key, and `SetInt` panics on
it. -/
theorem DBInsert_key_not_identifier :
    (DBInsert lowerASCII { emptyDB with answer := answerId 2147483648 } userTable "app_"
        narrowKeyRecord).2
        = .ok ([{ Name := "Id", exported := true, value := .int 32 (-2147483648) },
                { Name := "Name", exported := true, value := .str "ann" }],
               .ok { LastInsertId := .ok 2147483648 })
      ∧ (DBInsert lowerASCII emptyDB userTable "app_" twoKeysRecord).1.log
          = [{ sql := "INSERT INTO app_user() VALUES ()", args := [] }]
      ∧ (DBInsert lowerASCII emptyDB userTable "app_" twoKeysRecord).2
          = .error .setIntOnNonInt :=
  ⟨rfl, by decide, rfl⟩

/-- C8, amended.  Let `DBInsert` build its statement `st` without a panic, and
call key field of the record the last field whose lower-cased name is the key
column (`keyField`).  (1) If the key field is settable and of a signed
integer kind of `bits` bits, the INSERT executes without error and the driver
reports the identifier `v`, then `DBInsert` returns, the key field holds `v`
converted to `bits` bits, which is `v` itself when `v` fits in `bits` bits (as
every `int64` does in a 64-bit field), and every other field is unchanged.
(2) If the INSERT fails, `DBInsert` returns the record unchanged.  (3) If the
record has no key field, `DBInsert` returns the record unchanged.  (4) The
key field is a field whose lower-cased name is the key column and no later
field has that lower-cased name; there is none exactly when no field has. -/
theorem DBInsert_key_writeback (ToLower : String → String) (db : DB) (table : DBTable)
    (pfx : String) (object : Record) (st : Stmt) (key : Option Nat)
    (hst : insertStmt ToLower table pfx object = .ok (st, key)) :
    (∀ (rs : SqlResult) (v : Int) (i : Nat) (f : StructField) (bits : Nat) (x : Int),
        db.answer st = .ok rs → rs.LastInsertId = .ok v →
        keyField ToLower table object = some i → object.get? i = some f →
        f.CanSet = true → f.value = .int bits x →
        (DBInsert ToLower db table pfx object).2
            = .ok (object.set i { f with value := .int bits (wrapInt bits v) }, .ok rs)
          ∧ (0 < bits → -(2 : Int) ^ (bits - 1) ≤ v → v < (2 : Int) ^ (bits - 1) →
              wrapInt bits v = v)
          ∧ (∀ j, j ≠ i →
              (object.set i { f with value := .int bits (wrapInt bits v) }).get? j
                = object.get? j))
      ∧ (∀ e, db.answer st = .error e →
          (DBInsert ToLower db table pfx object).2 = .ok (object, .error e))
      ∧ (keyField ToLower table object = none →
          (DBInsert ToLower db table pfx object).2 = .ok (object, db.answer st))
      ∧ (∀ i, keyField ToLower table object = some i →
          (∃ f, object.get? i = some f ∧ ToLower f.Name = table.Key)
            ∧ ∀ m g, i < m → object.get? m = some g → ToLower g.Name ≠ table.Key)
      ∧ (keyField ToLower table object = none ↔ ∀ g ∈ object, ToLower g.Name ≠ table.Key) := by
  have hkey := insertStmt_key ToLower table pfx object st key hst
  have hsnd := DBInsert_snd ToLower db table pfx object st key hst
  subst hkey
  refine ⟨?_, ?_, ?_, ?_, ?_⟩
  · intro rs v i f bits x hans hid hk hf hset hval
    refine ⟨?_, wrapInt_of_range bits v, ?_⟩
    · rw [hsnd, hans]
      simp only [writeBack, hk, hf, hset, if_true, hid, StructField.SetInt, hval]
    · intro j hj
      simp only [List.get?_eq_getElem?]
      rw [List.getElem?_set_ne (Ne.symm hj)]
  · intro e hans
    rw [hsnd, hans]
    simp [writeBack]
  · intro hk
    rw [hsnd]
    cases hans : db.answer st <;> simp [writeBack, hk]
  · intro i hk
    obtain ⟨_, h2, h3⟩ := keyFieldFrom_some ToLower table object 0 i hk
    exact ⟨by simpa using h2, fun m g hm hg => h3 m g (by simpa using hm) hg⟩
  · constructor
    · exact keyFieldFrom_none ToLower table object 0
    · intro hall
      cases hk : keyField ToLower table object with
      | none => rfl
      | some i =>
        obtain ⟨_, ⟨f, hf, hfk⟩, _⟩ := keyFieldFrom_some ToLower table object 0 i hk
        exact absurd hfk (hall f (List.get?_mem hf))

/-- Witness of C8 amended: the record `struct { Id int64; Name string; Nick
string }` with `Id == 0`; the driver reports 1000; afterwards `Id` is 1000
and the other fields are as before. -/
theorem DBInsert_key_writeback_witness :
    insertStmt lowerASCII userTable "app_" annRecord
        = .ok ({ sql := "INSERT INTO app_user(name) VALUES (?)", args := [.str "ann"] }, some 0)
      ∧ (DBInsert lowerASCII emptyDB userTable "app_" annRecord).2
          = .ok (annRecord.set 0
                  { Name := "Id", exported := true, value := .int 64 (wrapInt 64 1000) },
                 .ok { LastInsertId := .ok 1000 })
      ∧ wrapInt 64 1000 = 1000 :=
  ⟨rfl,
   ((DBInsert_key_writeback lowerASCII emptyDB userTable "app_" annRecord
      { sql := "INSERT INTO app_user(name) VALUES (?)", args := [.str "ann"] } (some 0)
      rfl).1 { LastInsertId := .ok 1000 } 1000 0
      { Name := "Id", exported := true, value := .int 64 0 } 64 0 rfl rfl rfl rfl rfl rfl).1,
   by decide⟩

/-! ## C10: the parameter buffer -/

/-- C10 at the failing input.  The record
`struct { Id int64; Name string; NAME string }` has two fields bound to the
only column, `name`, of `userTable`: two bound fields for a buffer of length
`len(table.Fields) = 1`.  The second write `fs[n] = ...` of `DBInsert` is out
of range, and so is the final write `fs[n] = key` of `DBUpdate`, whose buffer
has length 2; neither function hands a statement to `db.Exec`. -/
theorem binder_buffer_overflow :
    (boundFields lowerASCII userTable twoNamesRecord).length = 2
      ∧ userTable.Fields.length = 1
      ∧ (DBInsert lowerASCII emptyDB userTable "app_" twoNamesRecord).2
          = .error .indexOutOfRange
      ∧ (DBInsert lowerASCII emptyDB userTable "app_" twoNamesRecord).1.log = []
      ∧ (DBUpdate lowerASCII emptyDB userTable "app_" twoNamesRecord).2
          = .error .indexOutOfRange
      ∧ (DBUpdate lowerASCII emptyDB userTable "app_" twoNamesRecord).1.log = [] :=
  ⟨by decide, by decide, rfl, by decide, rfl, by decide⟩

/-! ## C7: the statement of `DBUpdate` -/

theorem getLast?_cons_value (a : StructField) (l : List StructField) (d : GoValue) :
    (match (a :: l).getLast? with
     | some fd => fd.value
     | none => d)
      = (match l.getLast? with
         | some fd => fd.value
         | none => a.value) := by
  cases l with
  | nil => rfl
  | cons b r =>
    rw [List.getLast?_cons_cons, List.getLast?_eq_getLast (b :: r) (by simp)]

theorem updateLoop_ok (ToLower : String → String) (table : DBTable) :
    ∀ (l : List StructField) (st : UpdateState),
    (∀ fd ∈ l, isBound ToLower table fd = true ∨ ToLower fd.Name = table.Key →
      fd.exported = true) →
    st.n + (l.filter (isBound ToLower table)).length ≤ st.fs.length →
    ∃ st1, updateLoop ToLower table l st = .ok st1
      ∧ st1.s = st.s ++ commaList st.n
          ((l.filter (isBound ToLower table)).map (fun fd => " " ++ ToLower fd.Name ++ "=?"))
      ∧ st1.n = st.n + (l.filter (isBound ToLower table)).length
      ∧ st1.fs.length = st.fs.length
      ∧ st1.fs.take st1.n
          = st.fs.take st.n ++ (l.filter (isBound ToLower table)).map (fun fd => fd.value)
      ∧ st1.key = (match (l.filter (fun fd => decide (ToLower fd.Name = table.Key))).getLast?
                   with
                   | some fd => fd.value
                   | none => st.key) := by
  intro l
  induction l with
  | nil =>
    intro st _ _
    exact ⟨st, rfl, by simp [commaList_nil], by simp, rfl, by simp, rfl⟩
  | cons fd rest ih =>
    intro st hexp hlen
    have hexp1 : ∀ f ∈ rest, isBound ToLower table f = true ∨ ToLower f.Name = table.Key →
        f.exported = true :=
      fun f hf => hexp f (List.mem_cons_of_mem _ hf)
    by_cases hk : ToLower fd.Name = table.Key
    · have hb := isBound_of_key ToLower table fd hk
      have hex : fd.exported = true := hexp fd (List.mem_cons_self _ _) (Or.inr hk)
      simp only [List.filter_cons, hb] at hlen ⊢
      obtain ⟨st1, h1, h2, h3, h4, h5, h6⟩ :=
        ih { st with key := fd.value } hexp1 hlen
      refine ⟨st1, ?_, h2, h3, h4, h5, ?_⟩
      · simp only [updateLoop, hk, if_true, StructField.Interface, hex]
        exact h1
      · rw [h6]
        simp only [hk, decide_True, if_true]
        exact (getLast?_cons_value fd _ st.key).symm
    · cases hlk : table.Fields.lookup (ToLower fd.Name) with
      | none =>
        have hb := isBound_of_lookup_none ToLower table fd hlk
        simp only [List.filter_cons, hb] at hlen ⊢
        obtain ⟨st1, h1, h2, h3, h4, h5, h6⟩ := ih st hexp1 hlen
        refine ⟨st1, ?_, h2, h3, h4, h5, ?_⟩
        · simp only [updateLoop, hk, if_false, hlk]
          exact h1
        · rw [h6]
          simp [hk]
      | some x =>
        have hb := isBound_of_lookup_some ToLower table fd x hk hlk
        have hex : fd.exported = true := hexp fd (List.mem_cons_self _ _) (Or.inl hb)
        simp only [List.filter_cons, hb, if_true, List.length_cons] at hlen ⊢
        have hn : st.n < st.fs.length := by omega
        obtain ⟨st1, h1, h2, h3, h4, h5, h6⟩ :=
          ih { st with s := (if st.n ≠ 0 then st.s ++ "," else st.s)
                            ++ (" " ++ ToLower fd.Name ++ "=?"),
                       fs := st.fs.set st.n fd.value, n := st.n + 1 }
            hexp1 (by simp only [List.length_set]; omega)
        refine ⟨st1, ?_, ?_, ?_, ?_, ?_, ?_⟩
        · simp only [updateLoop, hk, if_false, hlk, StructField.Interface, hex, if_true,
            setIndex, hn]
          exact h1
        · rw [h2]
          simp only [List.map_cons, commaList_cons]
          by_cases h0 : st.n = 0 <;> simp [h0, String.append_assoc]
        · rw [h3]; simp only; omega
        · rw [h4]; simp
        · rw [h5]
          simp only [List.map_cons]
          rw [take_set_succ _ _ _ hn]
          simp
        · rw [h6]
          simp [hk]

/-- The statement of `DBUpdate` in closed form, for a record whose bound
fields and key fields are exported and whose bound fields are no more
numerous than the columns. -/
theorem updateStmt_ok (ToLower : String → String) (table : DBTable) (pfx : String)
    (object : Record)
    (hexp : ∀ fd ∈ object, isBound ToLower table fd = true ∨ ToLower fd.Name = table.Key →
      fd.exported = true)
    (hlen : (boundFields ToLower table object).length ≤ table.Fields.length) :
    updateStmt ToLower table pfx object = .ok
      { sql := "UPDATE " ++ (pfx ++ table.Name) ++ " SET "
          ++ String.intercalate ","
              ((boundColumns ToLower table object).map (fun c => " " ++ c ++ "=?"))
          ++ " WHERE " ++ table.Key ++ "=?",
        args := boundValues ToLower table object ++ [keyValue ToLower table object] } := by
  obtain ⟨st1, h1, h2, h3, h4, h5, h6⟩ :=
    updateLoop_ok ToLower table object
      { s := "UPDATE " ++ (pfx ++ table.Name) ++ " SET ",
        fs := List.replicate (table.Fields.length + 1) GoValue.nil,
        key := GoValue.nil, n := 0 }
      hexp (by simp only [List.length_replicate, boundFields] at hlen ⊢; omega)
  simp only [commaList_zero] at h2
  simp only [List.take_zero, List.nil_append, Nat.zero_add, List.length_replicate] at h3 h4 h5
  have hn : st1.n < st1.fs.length := by
    rw [h3, h4]
    simp only [boundFields] at hlen
    omega
  simp only [updateStmt, h1, setIndex, hn, if_true]
  rw [take_set_succ _ _ _ hn, h5, h2, h6]
  simp only [boundColumns, boundFields, boundValues, keyValue, List.map_map,
    String.append_assoc]
  rfl

/-- C7, as stated, fails.  The record `struct { id int64; Name string }` has
the field `id`, whose lower-cased name is the key column of `userTable`, so
the claim has `DBUpdate` execute an UPDATE whose last argument is the value of
`id`; the field is not exported, `DBUpdate` panics in `Interface()` and hands
no statement to `db.Exec`. -/
theorem DBUpdate_unexported_key_panics :
    userTable.Key = "id"
      ∧ keyValue lowerASCII userTable hiddenKeyRecord = .int 64 7
      ∧ (DBUpdate lowerASCII emptyDB userTable "app_" hiddenKeyRecord).2
          = .error .unexportedField
      ∧ (DBUpdate lowerASCII emptyDB userTable "app_" hiddenKeyRecord).1.log = [] :=
  ⟨by decide, by decide, rfl, by decide⟩

/-- C7, amended.  For every table descriptor, table-name part and record in
which the bound fields and the fields whose lower-cased name is `table.Key`
are exported and the bound fields are not more numerous than the columns of
`table.Fields`, `DBUpdate` hands exactly one statement to `db.Exec`:
`UPDATE <prefix+name> SET  c1=?, ..., ck=? WHERE <Key>=?` where `c1..ck` are
chosen as in `DBInsert`; its arguments are the `k` bound values in that order
followed by one final argument, the value of the last field whose lower-cased
name is `table.Key`, which is nil when the record has no such field.
`DBUpdate` returns what `db.Exec` answers and the record is as it was. -/
theorem DBUpdate_statement (ToLower : String → String) (db : DB) (table : DBTable)
    (pfx : String) (object : Record)
    (hexp : ∀ fd ∈ object, isBound ToLower table fd = true ∨ ToLower fd.Name = table.Key →
      fd.exported = true)
    (hlen : (boundFields ToLower table object).length ≤ table.Fields.length) :
    (DBUpdate ToLower db table pfx object).1.log = db.log ++
        [{ sql := "UPDATE " ++ (pfx ++ table.Name) ++ " SET "
              ++ String.intercalate ","
                  ((boundColumns ToLower table object).map (fun c => " " ++ c ++ "=?"))
              ++ " WHERE " ++ table.Key ++ "=?",
           args := boundValues ToLower table object ++ [keyValue ToLower table object] }]
      ∧ (DBUpdate ToLower db table pfx object).2
          = .ok (object, db.answer
              { sql := "UPDATE " ++ (pfx ++ table.Name) ++ " SET "
                  ++ String.intercalate ","
                      ((boundColumns ToLower table object).map (fun c => " " ++ c ++ "=?"))
                  ++ " WHERE " ++ table.Key ++ "=?",
                args := boundValues ToLower table object ++ [keyValue ToLower table object] })
      ∧ (boundValues ToLower table object ++ [keyValue ToLower table object]).length
          = (boundColumns ToLower table object).length + 1
      ∧ ((∀ fd ∈ object, ToLower fd.Name ≠ table.Key) →
          keyValue ToLower table object = GoValue.nil)
      ∧ (∀ (front back : List StructField) (fd : StructField),
          object = front ++ fd :: back → ToLower fd.Name = table.Key →
          (∀ g ∈ back, ToLower g.Name ≠ table.Key) →
          keyValue ToLower table object = fd.value) := by
  have hst := updateStmt_ok ToLower table pfx object hexp hlen
  have hlog := Exec_fst_log db
    ("UPDATE " ++ (pfx ++ table.Name) ++ " SET "
      ++ String.intercalate ","
          ((boundColumns ToLower table object).map (fun c => " " ++ c ++ "=?"))
      ++ " WHERE " ++ table.Key ++ "=?")
    (boundValues ToLower table object ++ [keyValue ToLower table object])
  have hsnd := Exec_snd db
    ("UPDATE " ++ (pfx ++ table.Name) ++ " SET "
      ++ String.intercalate ","
          ((boundColumns ToLower table object).map (fun c => " " ++ c ++ "=?"))
      ++ " WHERE " ++ table.Key ++ "=?")
    (boundValues ToLower table object ++ [keyValue ToLower table object])
  refine ⟨?_, ?_, by simp [boundValues, boundColumns], ?_, ?_⟩
  · simp only [DBUpdate, hst]
    exact hlog
  · simp only [DBUpdate, hst]
    rw [← hsnd]
  · intro hall
    have : object.filter (fun fd => decide (ToLower fd.Name = table.Key)) = [] := by
      rw [List.filter_eq_nil_iff]
      intro fd hfd
      simpa using hall fd hfd
    simp [keyValue, this]
  · intro front back fd hobj hk hback
    have hb : back.filter (fun g => decide (ToLower g.Name = table.Key)) = [] := by
      rw [List.filter_eq_nil_iff]
      intro g hg
      simpa using hback g hg
    simp [keyValue, hobj, List.filter_append, List.filter_cons, hk, hb]

/-- Witness of C7 amended: `struct { Id int64; Name string; Nick string }`
with `Id == 7`. -/
theorem DBUpdate_statement_witness :
    (∀ fd ∈ ({ Name := "Id", exported := true, value := .int 64 7 } :: annRecord.tail),
        isBound lowerASCII userTable fd = true ∨ lowerASCII fd.Name = userTable.Key →
        fd.exported = true)
      ∧ (boundFields lowerASCII userTable
            ({ Name := "Id", exported := true, value := .int 64 7 } :: annRecord.tail)).length
          ≤ userTable.Fields.length
      ∧ (DBUpdate lowerASCII emptyDB userTable "app_"
            ({ Name := "Id", exported := true, value := .int 64 7 } :: annRecord.tail)).1.log
          = [{ sql := "UPDATE app_user SET  name=? WHERE id=?",
               args := [.str "ann", .int 64 7] }] :=
  ⟨by decide, by decide,
   (DBUpdate_statement lowerASCII emptyDB userTable "app_"
      ({ Name := "Id", exported := true, value := .int 64 7 } :: annRecord.tail)
      (by decide) (by decide)).1⟩

/-! ## C9: the binding of the scanner -/

theorem columnIndex_not_mem : ∀ (l : List String) (k : Nat) (mi : String → Option Nat)
    (name : String), name ∉ l → columnIndex l k mi name = mi name := by
  intro l
  induction l with
  | nil => intro k mi name _; rfl
  | cons c rest ih =>
    intro k mi name h
    simp only [List.mem_cons, not_or] at h
    simp only [columnIndex]
    rw [ih _ _ _ h.2]
    simp [h.1]

theorem columnIndex_mem : ∀ (l : List String) (k : Nat) (mi : String → Option Nat)
    (name : String), name ∈ l →
    ∃ i, columnIndex l k mi name = some (k + i) ∧ lastAt l i name := by
  intro l
  induction l with
  | nil => intro k mi name h; simp at h
  | cons c rest ih =>
    intro k mi name h
    simp only [columnIndex]
    by_cases hr : name ∈ rest
    · obtain ⟨i, h1, h2, h3⟩ := ih (k + 1) (fun x => if x = c then some k else mi x) name hr
      refine ⟨i + 1, ?_, ?_, ?_⟩
      · rw [h1]; congr 1; omega
      · simpa using h2
      · intro m hm
        cases m with
        | zero => omega
        | succ m1 =>
          simp only [List.get?_cons_succ]
          exact h3 m1 (by omega)
    · have hc : name = c := by
        rcases List.mem_cons.mp h with h1 | h1
        · exact h1
        · exact absurd h1 hr
      refine ⟨0, ?_, ?_, ?_⟩
      · rw [columnIndex_not_mem _ _ _ _ hr]
        simp [hc]
      · simp [hc]
      · intro m hm
        cases m with
        | zero => omega
        | succ m1 =>
          simp only [List.get?_cons_succ]
          intro hget
          exact hr (List.get?_mem hget)

theorem lastAt_unique (cols : List String) (i j : Nat) (name : String)
    (hi : lastAt cols i name) (hj : lastAt cols j name) : i = j := by
  rcases Nat.lt_trichotomy i j with h | h | h
  · exact absurd hj.1 (hi.2 j h)
  · exact h
  · exact absurd hi.1 (hj.2 i h)

theorem columnIndex_eq_some (cols : List String) (name : String) (i : Nat) :
    columnIndex cols 0 (fun _ => none) name = some i ↔ lastAt cols i name := by
  by_cases hmem : name ∈ cols
  · obtain ⟨i0, h1, h2⟩ := columnIndex_mem cols 0 (fun _ => none) name hmem
    rw [h1]
    simp only [Nat.zero_add, Option.some.injEq]
    constructor
    · intro h; subst h; exact h2
    · intro h; exact lastAt_unique cols i0 i name h2 h
  · rw [columnIndex_not_mem _ _ _ _ hmem]
    constructor
    · intro h; cases h
    · intro h; exact absurd (List.get?_mem h.1) hmem

theorem lastIndexFrom_none (P : StructField → Bool) :
    ∀ (l : List StructField) (k : Nat), lastIndexFrom P l k = none →
    ∀ g ∈ l, P g = false := by
  intro l
  induction l with
  | nil => intro k _ g hg; simp at hg
  | cons a rest ih =>
    intro k h g hg
    simp only [lastIndexFrom] at h
    cases hr : lastIndexFrom P rest (k + 1) with
    | some x => rw [hr] at h; cases h
    | none =>
      rw [hr] at h
      simp only at h
      rcases List.mem_cons.mp hg with rfl | hmem
      · cases hp : P g with
        | false => rfl
        | true => simp [hp] at h
      · exact ih (k + 1) hr g hmem

theorem lastIndexFrom_some (P : StructField → Bool) :
    ∀ (l : List StructField) (k j : Nat), lastIndexFrom P l k = some j →
    k ≤ j ∧ (∃ f, l.get? (j - k) = some f ∧ P f = true)
      ∧ ∀ m g, j - k < m → l.get? m = some g → P g = false := by
  intro l
  induction l with
  | nil => intro k j h; simp [lastIndexFrom] at h
  | cons fd rest ih =>
    intro k j h
    simp only [lastIndexFrom] at h
    cases hr : lastIndexFrom P rest (k + 1) with
    | some j1 =>
      rw [hr] at h
      simp only [Option.some.injEq] at h
      subst h
      obtain ⟨h1, ⟨f, hf, hfk⟩, h3⟩ := ih (k + 1) j1 hr
      have hji : j1 - k = (j1 - (k + 1)) + 1 := by omega
      refine ⟨by omega, ⟨f, ?_, hfk⟩, ?_⟩
      · rw [hji]; simpa using hf
      · intro m g hm hg
        cases m with
        | zero => omega
        | succ m1 =>
          simp only [List.get?_cons_succ] at hg
          exact h3 m1 g (by omega) hg
    | none =>
      rw [hr] at h
      simp only at h
      cases hp : P fd with
      | false => simp [hp] at h
      | true =>
        simp only [hp, if_true, Option.some.injEq] at h
        subst h
        refine ⟨le_refl _, ⟨fd, by simp, hp⟩, ?_⟩
        intro m g hm hg
        cases m with
        | zero => omega
        | succ m1 =>
          simp only [List.get?_cons_succ] at hg
          exact lastIndexFrom_none P rest (k + 1) hr g (List.get?_mem hg)

theorem lastIndexFrom_iff (P : StructField → Bool) (l : List StructField) (j : Nat) :
    lastIndexFrom P l 0 = some j ↔
      (∃ f, l.get? j = some f ∧ P f = true)
        ∧ ∀ m g, j < m → l.get? m = some g → P g = false := by
  constructor
  · intro h
    obtain ⟨_, h2, h3⟩ := lastIndexFrom_some P l 0 j h
    exact ⟨by simpa using h2, fun m g hm hg => h3 m g (by simpa using hm) hg⟩
  · rintro ⟨⟨f, hf, hpf⟩, hlast⟩
    cases h : lastIndexFrom P l 0 with
    | none =>
      have := lastIndexFrom_none P l 0 h f (List.get?_mem hf)
      rw [this] at hpf; cases hpf
    | some j0 =>
      obtain ⟨_, ⟨f0, hf0, hpf0⟩, h3⟩ := lastIndexFrom_some P l 0 j0 h
      simp only [Nat.sub_zero] at hf0 h3
      rcases Nat.lt_trichotomy j0 j with hlt | heq | hgt
      · have := h3 j f hlt hf
        rw [this] at hpf; cases hpf
      · rw [heq]
      · have := hlast j0 f0 hgt hf0
        rw [this] at hpf0; cases hpf0

theorem getD_set (fields : List (Option Nat)) (idx p : Nat) (v : Option Nat)
    (h : idx < fields.length) :
    (fields.set idx v).getD p none = if idx = p then v else fields.getD p none := by
  simp only [List.getD_eq_getElem?_getD, List.getElem?_set]
  by_cases hp : idx = p
  · subst hp
    simp [h]
  · simp [hp]

theorem bindLoop_ok (ToLower : String → String) (mi : String → Option Nat) :
    ∀ (l : List StructField) (k : Nat) (fields : List (Option Nat)),
    (∀ fd ∈ l, (mi (ToLower fd.Name)).isSome = true → fd.exported = true) →
    (∀ name idx, mi name = some idx → idx < fields.length) →
    ∃ fields1, bindLoop ToLower mi l k fields = .ok fields1
      ∧ fields1.length = fields.length
      ∧ ∀ p, fields1.getD p none =
          (match lastIndexFrom (fun fd => decide (mi (ToLower fd.Name) = some p)) l k with
           | some j => some j
           | none => fields.getD p none) := by
  intro l
  induction l with
  | nil =>
    intro k fields _ _
    exact ⟨fields, rfl, rfl, fun p => rfl⟩
  | cons fd rest ih =>
    intro k fields hexp hmi
    have hexp1 : ∀ f ∈ rest, (mi (ToLower f.Name)).isSome = true → f.exported = true :=
      fun f hf => hexp f (List.mem_cons_of_mem _ hf)
    cases hm : mi (ToLower fd.Name) with
    | none =>
      obtain ⟨fields1, h1, h2, h3⟩ := ih (k + 1) fields hexp1 hmi
      refine ⟨fields1, ?_, h2, ?_⟩
      · simp only [bindLoop, hm]
        exact h1
      · intro p
        rw [h3 p]
        simp only [lastIndexFrom, hm]
        cases lastIndexFrom (fun fd => decide (mi (ToLower fd.Name) = some p)) rest (k + 1)
          <;> simp
    | some idx =>
      have hex : fd.exported = true := hexp fd (List.mem_cons_self _ _) (by simp [hm])
      have hidx : idx < fields.length := hmi _ _ hm
      obtain ⟨fields1, h1, h2, h3⟩ :=
        ih (k + 1) (fields.set idx (some k)) hexp1
          (by intro name i hi; simp only [List.length_set]; exact hmi name i hi)
      refine ⟨fields1, ?_, ?_, ?_⟩
      · simp only [bindLoop, hm, hex, if_true, hidx]
        exact h1
      · rw [h2]; simp
      · intro p
        rw [h3 p, getD_set _ _ _ _ hidx]
        simp only [lastIndexFrom, hm, Option.some.injEq]
        cases lastIndexFrom (fun fd => decide (mi (ToLower fd.Name) = some p)) rest (k + 1)
        · by_cases hp : idx = p <;> simp [hp]
        · rfl

theorem get?_eq_some_some_iff (binding : List (Option Nat)) (i j : Nat) :
    binding.get? i = some (some j) ↔ binding.getD i none = some j := by
  simp only [List.getD_eq_getElem?_getD, List.get?_eq_getElem?]
  cases h : binding[i]? with
  | none => simp
  | some x => cases x <;> simp

theorem lastAt_of_nodup (cols : List String) (hnd : cols.Nodup) (i : Nat) (name : String) :
    lastAt cols i name ↔ cols.get? i = some name := by
  constructor
  · intro h; exact h.1
  · intro h
    refine ⟨h, ?_⟩
    intro m hm hget
    have hlen : m < cols.length := by
      simp only [List.get?_eq_getElem?] at hget
      exact (List.getElem?_eq_some_iff.mp hget).1
    have := (List.nodup_iff_getElem?_ne_getElem?.mp hnd) i m hm hlen
    simp only [List.get?_eq_getElem?] at h hget
    rw [h, hget] at this
    exact this rfl

theorem Scan_first (ToLower : String → String) (object : Record) (rows : Rows)
    (cols : List String) (hcols : rows.Columns = .ok cols)
    (hexp : ∀ fd ∈ object, ToLower fd.Name ∈ cols → fd.exported = true) :
    ∃ binding,
      (NewDBScaner object).Scan ToLower rows
          = .ok ({ object := object, fields := some binding }, .rowsScan binding)
        ∧ binding.length = cols.length
        ∧ ∀ p, binding.getD p none
            = lastIndexFrom
                (fun fd => decide (columnIndex cols 0 (fun _ => none) (ToLower fd.Name) = some p))
                object 0 := by
  obtain ⟨binding, h1, h2, h3⟩ :=
    bindLoop_ok ToLower (columnIndex cols 0 (fun _ => none)) object 0
      (List.replicate cols.length none)
      (by
        intro fd hfd hsome
        apply hexp fd hfd
        cases hm : columnIndex cols 0 (fun _ => none) (ToLower fd.Name) with
        | none => rw [hm] at hsome; cases hsome
        | some idx => exact List.get?_mem ((columnIndex_eq_some _ _ _).mp hm).1)
      (by
        intro name idx hm
        have := ((columnIndex_eq_some _ _ _).mp hm).1
        simp only [List.get?_eq_getElem?] at this
        simpa using (List.getElem?_eq_some_iff.mp this).1)
  refine ⟨binding, ?_, by simpa using h2, ?_⟩
  · simp only [DBScaner.Scan, NewDBScaner, hcols, h1]
  · intro p
    rw [h3 p]
    cases lastIndexFrom
      (fun fd => decide (columnIndex cols 0 (fun _ => none) (ToLower fd.Name) = some p))
      object 0 with
    | none => simp
    | some j => rfl

/-- C9, as stated, fails.  (1) With the columns `id, id` and the record
`struct { Id int64; Name string }`, position 0 is left unbound although the
lower-cased name of `Id` equals `cols[0]`.  (2) With the column `name` and the
record `struct { Id int64; Name string; NAME string }`, position 0 is bound
to `NAME` (field 2) and not to `Name` (field 1), whose lower-cased name also
equals `cols[0]`.  (3) With the columns `id, name` and the record
`struct { Id int64; name string }`, `Scan` panics on the unexported field and
there is no binding. -/
theorem Scan_duplicate_names_counterexample :
    ((NewDBScaner idNameRecord).Scan lowerASCII { Columns := .ok ["id", "id"] })
        = .ok ({ object := idNameRecord, fields := some [none, some 0] },
               .rowsScan [none, some 0])
      ∧ ((NewDBScaner twoNamesRecord).Scan lowerASCII { Columns := .ok ["name"] })
        = .ok ({ object := twoNamesRecord, fields := some [some 2] }, .rowsScan [some 2])
      ∧ (twoNamesRecord.get? 1).map (fun fd => lowerASCII fd.Name) = some "name"
      ∧ ((NewDBScaner hiddenNameRecord).Scan lowerASCII { Columns := .ok ["id", "name"] })
        = .error .unexportedField :=
  ⟨rfl, rfl, by decide, rfl⟩

/-- C9, amended.  Let `rows.Columns()` return `cols` and let every record
field whose lower-cased name is a column name be exported.  Then the first
`Scan` of a new scanner returns after computing a binding with exactly
`len(cols)` positions, in which position `i` is bound to the address of field
`j` if and only if the lower-cased name of field `j` equals `cols[i]`, no
later column has that name and no later field has that lower-cased name; every
other position is unbound.  When the column names are pairwise distinct and
the lower-cased field names are pairwise distinct this is: position `i` is
bound to field `j` if and only if the lower-cased name of field `j` equals
`cols[i]`, whatever the order of the columns.  Every later `Scan` of that
scanner, on any rows, passes this binding to `rows.Scan` and keeps it, without
reading the column names. -/
theorem Scan_binding (ToLower : String → String) (object : Record) (rows : Rows)
    (cols : List String) (hcols : rows.Columns = .ok cols)
    (hexp : ∀ fd ∈ object, ToLower fd.Name ∈ cols → fd.exported = true) :
    ∃ binding,
      (NewDBScaner object).Scan ToLower rows
          = .ok ({ object := object, fields := some binding }, .rowsScan binding)
        ∧ binding.length = cols.length
        ∧ (∀ i j, binding.get? i = some (some j) ↔
            ∃ f, object.get? j = some f ∧ lastAt cols i (ToLower f.Name)
              ∧ ∀ m g, j < m → object.get? m = some g → ToLower g.Name ≠ ToLower f.Name)
        ∧ (cols.Nodup → (object.map (fun fd => ToLower fd.Name)).Nodup →
            ∀ i j, binding.get? i = some (some j) ↔
              ∃ f, object.get? j = some f ∧ cols.get? i = some (ToLower f.Name))
        ∧ (∀ rows2 : Rows,
            ({ object := object, fields := some binding } : DBScaner).Scan ToLower rows2
              = .ok ({ object := object, fields := some binding }, .rowsScan binding)) := by
  obtain ⟨binding, h1, h2, h3⟩ := Scan_first ToLower object rows cols hcols hexp
  have hchar : ∀ i j, binding.get? i = some (some j) ↔
      ∃ f, object.get? j = some f ∧ lastAt cols i (ToLower f.Name)
        ∧ ∀ m g, j < m → object.get? m = some g → ToLower g.Name ≠ ToLower f.Name := by
    intro i j
    rw [get?_eq_some_some_iff, h3 i, lastIndexFrom_iff]
    constructor
    · rintro ⟨⟨f, hf, hpf⟩, hlast⟩
      have hfi : lastAt cols i (ToLower f.Name) :=
        (columnIndex_eq_some _ _ _).mp (of_decide_eq_true hpf)
      refine ⟨f, hf, hfi, ?_⟩
      intro m g hm hg heq
      have := hlast m g hm hg
      have hne := of_decide_eq_false this
      apply hne
      rw [heq]
      exact (columnIndex_eq_some _ _ _).mpr hfi
    · rintro ⟨f, hf, hfi, hlast⟩
      refine ⟨⟨f, hf, decide_eq_true ((columnIndex_eq_some _ _ _).mpr hfi)⟩, ?_⟩
      intro m g hm hg
      apply decide_eq_false
      intro hgi
      have hg2 := (columnIndex_eq_some _ _ _).mp hgi
      have : some (ToLower g.Name) = some (ToLower f.Name) := by rw [← hg2.1, ← hfi.1]
      exact hlast m g hm hg (Option.some.inj this)
  refine ⟨binding, h1, h2, hchar, ?_, ?_⟩
  · intro hnd hfnd i j
    rw [hchar]
    constructor
    · rintro ⟨f, hf, hfi, _⟩
      exact ⟨f, hf, hfi.1⟩
    · rintro ⟨f, hf, hfi⟩
      refine ⟨f, hf, (lastAt_of_nodup cols hnd i _).mpr hfi, ?_⟩
      intro m g hm hg heq
      have hlen : m < (object.map (fun fd => ToLower fd.Name)).length := by
        simp only [List.get?_eq_getElem?] at hg
        simpa using (List.getElem?_eq_some_iff.mp hg).1
      have := (List.nodup_iff_getElem?_ne_getElem?.mp hfnd) j m hm hlen
      simp only [List.get?_eq_getElem?] at hf hg
      simp only [List.getElem?_map, hf, hg, Option.map_some'] at this
      exact this (by rw [heq])
  · intro rows2
    rfl

/-- Witness of C9 amended: the columns `name, id` (not in the order of the
fields) and the record `struct { Id int64; Name string; Nick string }`. -/
theorem Scan_binding_witness :
    (({ Columns := .ok ["name", "id"] } : Rows).Columns = .ok ["name", "id"])
      ∧ (∀ fd ∈ annRecord, lowerASCII fd.Name ∈ ["name", "id"] → fd.exported = true)
      ∧ ((NewDBScaner annRecord).Scan lowerASCII { Columns := .ok ["name", "id"] })
          = .ok ({ object := annRecord, fields := some [some 1, some 0] },
                 .rowsScan [some 1, some 0])
      ∧ ∃ binding,
          (NewDBScaner annRecord).Scan lowerASCII { Columns := .ok ["name", "id"] }
              = .ok ({ object := annRecord, fields := some binding }, .rowsScan binding)
            ∧ binding.length = ["name", "id"].length :=
  ⟨rfl, by decide, rfl,
   (Scan_binding lowerASCII annRecord { Columns := .ok ["name", "id"] } ["name", "id"] rfl
      (by decide)).imp (fun _ h => ⟨h.1, h.2.1⟩)⟩

end kk
